import Mathlib

/-!
# Module-load guard: module registry and load interceptor

Shallow embedding of `Avanguard/AvanguardDefence/DllFilter.cpp`.

* Addresses, handles and sizes are natural numbers; `NULL` is `0`.  The
  pointer sum `Base + Size` of `GetModuleBase` is taken at the pointer width
  of the build, `ptrBits` (32 or 64), where it wraps; the section address
  `hModule + VirtualAddress` is formed inside the mapped image.
* `std::map<HMODULE, MODULE_INFO>` is a list of key/value pairs kept in
  ascending key order; `std::set<HMODULE>` is an ascending list of keys;
  `std::unordered_set<std::wstring>` is a duplicate-free list of names.
* `std::wstring` is the list of its UTF-16 code units.
* The reader/writer lock calls and the `Log` calls have no effect on any
  value computed here and are left out, as are the calls by which `Add`
  announces the executable sections to `MemoryFilter`, which act on the
  state of that other subsystem only.
* The hash `t1ha0` is an external library function: it is a parameter of the
  embedding, applied to the bytes read from memory and to the seed.
* The embedding is of the build in which `FEATURE_STACKTRACE_CHECK`,
  `FEATURE_WINDOWS_HOOKS_FILTER` and `FEATURE_ALLOW_SYSTEM_MODULES` are
  defined (the verdict switch refers to `IgnoredModules` outside any
  `#ifdef`, so the stack check cannot be compiled without the hooks filter).
-/

namespace DllFilter

/-! ## Ordered containers -/

namespace StdMap

/-- Lookup `std::map::find`: the value stored under `key`, if any. -/
def find {V : Type} : List (Nat × V) → Nat → Option V
  | [], _ => none
  | (k, v) :: rest, key => if k = key then some v else find rest key

/-- Insertion `std::map::emplace`: inserts at the ordered position unless the
key is already there, in which case the map is left as it is. -/
def emplace {V : Type} : List (Nat × V) → Nat → V → List (Nat × V)
  | [], key, v => [(key, v)]
  | (k, w) :: rest, key, v =>
    if key < k then (key, v) :: (k, w) :: rest
    else if key = k then (k, w) :: rest
    else (k, w) :: emplace rest key v

/-- Removal `std::map::erase(key)`: drops the element stored under `key`. -/
def erase {V : Type} : List (Nat × V) → Nat → List (Nat × V)
  | [], _ => []
  | (k, w) :: rest, key => if k = key then erase rest key else (k, w) :: erase rest key

end StdMap

namespace StdSet

/-- Insertion `std::set::emplace`: ordered insertion without duplicates. -/
def emplace : List Nat → Nat → List Nat
  | [], x => [x]
  | y :: rest, x =>
    if x < y then x :: y :: rest
    else if x = y then y :: rest
    else y :: emplace rest x

/-- Reset `std::set::clear`. -/
def clear (_s : List Nat) : List Nat := []

end StdSet

/-! ## Data model -/

/-- Entry of the section table of a mapped image (`IMAGE_SECTION_HEADER`),
reduced to the three fields `FillExecutableSection` reads. -/
structure IMAGE_SECTION_HEADER where
  VirtualSize : Nat
  VirtualAddress : Nat
  Characteristics : Nat
deriving DecidableEq, Repr

/-- Section flag "contains code" (value of the platform header). -/
def IMAGE_SCN_CNT_CODE : Nat := 0x00000020

/-- Section flag "executable" (value of the platform header). -/
def IMAGE_SCN_MEM_EXECUTE : Nat := 0x20000000

/-- Executable section of a module: start address and length. -/
structure SEC_INFO where
  VirtualAddress : Nat
  Size : Nat
deriving DecidableEq, Repr

/-- Module descriptor stored in the registry. -/
structure MODULE_INFO where
  Base : Nat
  Hash : Nat
  Size : Nat
  Name : List Nat
  ExecutableSections : List SEC_INFO
deriving DecidableEq, Repr

/-- Process memory as the registry observes it.  `byte a` is the byte at
address `a`, or `none` when reading it raises an access fault;
`sectionTable h` is the section table reached from the headers of the image
mapped at `h` (the `NumberOfSections` entries from `IMAGE_FIRST_SECTION`). -/
structure Memory where
  byte : Nat → Option Nat
  sectionTable : Nat → List IMAGE_SECTION_HEADER

/-- The `len` bytes starting at `addr`, or `none` if one of them faults. -/
def readBytes (mem : Memory) : Nat → Nat → Option (List Nat)
  | 0, _ => some []
  | len + 1, addr =>
    match mem.byte addr with
    | none => none
    | some b =>
      match readBytes mem len (addr + 1) with
      | none => none
      | some bs => some (b :: bs)

/-- The registry: `std::map<HMODULE, MODULE_INFO> Modules`. -/
abbrev Registry := List (Nat × MODULE_INFO)

/-- Seed passed to `t1ha0` by `CalcModuleHashSafe`. -/
def HashSeed : Nat := 0x1EE7C0DE

namespace KnownModulesStorage

/-- Loop body of `FillExecutableSection`: keeps the sections flagged as code
or as executable, as `(hModule + VirtualAddress, VirtualSize)`. -/
def FillExecutableSection (mem : Memory) (hModule : Nat) : List SEC_INFO :=
  (mem.sectionTable hModule).filterMap fun SectionHeader =>
    if SectionHeader.Characteristics &&& IMAGE_SCN_CNT_CODE ≠ 0
        ∨ SectionHeader.Characteristics &&& IMAGE_SCN_MEM_EXECUTE ≠ 0 then
      some ⟨hModule + SectionHeader.VirtualAddress, SectionHeader.VirtualSize⟩
    else none

/-- One call `t1ha0(data, len, seed)` on live memory: the external 64-bit hash
`t1ha0` applied to the bytes read, or `none` when the read faults. -/
def hashRange (t1ha0 : List Nat → Nat → Nat) (mem : Memory) (data len seed : Nat) :
    Option Nat :=
  match readBytes mem len data with
  | none => none
  | some bs => some (t1ha0 bs seed % 2 ^ 64)

/-- The `for` loop of `CalcModuleHashSafe` inside the `__try` block: `none`
when a fault leaves the block. -/
def hashSections (t1ha0 : List Nat → Nat → Nat) (mem : Memory) :
    List SEC_INFO → Nat → Option Nat
  | [], Hash => some Hash
  | Section :: rest, Hash =>
    match hashRange t1ha0 mem Section.VirtualAddress Section.Size HashSeed with
    | none => none
    | some h => hashSections t1ha0 mem rest (Hash ^^^ h)

/-- Fingerprint `CalcModuleHashSafe`: XOR of the section hashes, `0` from the
`__except` handler. -/
def CalcModuleHashSafe (t1ha0 : List Nat → Nat → Nat) (mem : Memory)
    (Sections : List SEC_INFO) : Nat :=
  match hashSections t1ha0 mem Sections 0 with
  | some Hash => Hash
  | none => 0

/-- Name copied by `Add`: the characters of the `UNICODE_STRING` when the
pointer, its buffer and its length are all non-null, else the empty string.
The argument is `none` for a null pointer or buffer. -/
def copyName : Option (List Nat) → List Nat
  | none => []
  | some chars => chars

/-- Registration `Add(hModule, Size, Name)` in memory state `mem`. -/
def Add (t1ha0 : List Nat → Nat → Nat) (mem : Memory) (Modules : Registry)
    (hModule Size : Nat) (Name : Option (List Nat)) : Registry :=
  if hModule = 0 ∨ Size = 0 then Modules
  else
    let Sections := FillExecutableSection mem hModule
    StdMap.emplace Modules hModule
      { Base := hModule
        Hash := CalcModuleHashSafe t1ha0 mem Sections
        Size := Size
        Name := copyName Name
        ExecutableSections := Sections }

/-- Removal `Remove(hModule)`. -/
def Remove (Modules : Registry) (hModule : Nat) : Registry :=
  if hModule = 0 then Modules else StdMap.erase Modules hModule

/-- Reset `Clear()`. -/
def Clear (_Modules : Registry) : Registry := []

/-- Query `IsModulePresent(hModule)`. -/
def IsModulePresent (Modules : Registry) (hModule : Nat) : Bool :=
  (StdMap.find Modules hModule).isSome

/-- Query `GetModuleBase(Address)` in a build with pointers of `ptrBits` bits:
ascending scan that stops at the first key above `Address` or at the first
descriptor for which `Address >= Base` and `Address < Base + Size`, the sum
being a pointer sum that wraps at the pointer width. -/
def GetModuleBase (ptrBits : Nat) : Registry → Nat → Nat
  | [], _ => 0
  | (key, Info) :: rest, Address =>
    if key > Address then 0
    else if Address ≥ Info.Base ∧ Address < (Info.Base + Info.Size) % 2 ^ ptrBits then
      Info.Base
    else GetModuleBase ptrBits rest Address

/-- Query `GetModuleName(hModule)`. -/
def GetModuleName (Modules : Registry) (hModule : Nat) : List Nat :=
  match StdMap.find Modules hModule with
  | some Info => Info.Name
  | none => []

/-- Query `IsAddressInKnownModule(Address)`. -/
def IsAddressInKnownModule (ptrBits : Nat) (Modules : Registry) (Address : Nat) : Bool :=
  GetModuleBase ptrBits Modules Address != 0

/-- Query `IsModuleValid(hModule)` in memory state `mem`. -/
def IsModuleValid (t1ha0 : List Nat → Nat → Nat) (mem : Memory) (Modules : Registry)
    (hModule : Nat) : Bool :=
  if hModule = 0 then false
  else
    match StdMap.find Modules hModule with
    | none => false
    | some Info => Info.Hash == CalcModuleHashSafe t1ha0 mem Info.ExecutableSections

/-- Assignment through the iterator in `RehashModule`: overwrites the `Hash`
of the element stored under `key`. -/
def setHash (t1ha0 : List Nat → Nat → Nat) (mem : Memory) : Registry → Nat → Registry
  | [], _ => []
  | (k, Info) :: rest, key =>
    if k = key then
      (k, { Info with Hash := CalcModuleHashSafe t1ha0 mem Info.ExecutableSections }) :: rest
    else (k, Info) :: setHash t1ha0 mem rest key

/-- Update `RehashModule(hModule)` in memory state `mem`. -/
def RehashModule (t1ha0 : List Nat → Nat → Nat) (mem : Memory) (Modules : Registry)
    (hModule : Nat) : Registry :=
  if hModule = 0 then Modules else setHash t1ha0 mem Modules hModule

/-- The `for` loop of `FindChangedModules`, accumulating into the output set. -/
def findChangedLoop (t1ha0 : List Nat → Nat → Nat) (mem : Memory) :
    Registry → List Nat → List Nat
  | [], ChangedModules => ChangedModules
  | (_, Info) :: rest, ChangedModules =>
    let CurrentHash := CalcModuleHashSafe t1ha0 mem Info.ExecutableSections
    if CurrentHash ≠ 0 ∧ Info.Hash ≠ CurrentHash then
      findChangedLoop t1ha0 mem rest (StdSet.emplace ChangedModules Info.Base)
    else findChangedLoop t1ha0 mem rest ChangedModules

/-- Sweep `FindChangedModules(ChangedModules)`: the content of the output set
after the call, given its content `ChangedModules` before (cleared first).
The method is `const`: the registry is read only. -/
def FindChangedModules (t1ha0 : List Nat → Nat → Nat) (mem : Memory) (Modules : Registry)
    (ChangedModules : List Nat) : List Nat :=
  findChangedLoop t1ha0 mem Modules (StdSet.clear ChangedModules)

end KnownModulesStorage

/-! ## Seen-name sets -/

namespace ModulesNamesStorage

/-- Insertion `Add(ModuleName)`: `std::unordered_set::emplace`. -/
def Add (Modules : List (List Nat)) (ModuleName : List Nat) : List (List Nat) :=
  if ModuleName ∈ Modules then Modules else ModuleName :: Modules

/-- Query `Exists(ModuleName)`. -/
def Exists (Modules : List (List Nat)) (ModuleName : List Nat) : Bool :=
  decide (ModuleName ∈ Modules)

end ModulesNamesStorage

/-! ## Load interceptor -/

/-- Result of the stack check (`StacktraceChecker::STACKTRACE_CHECK_RESULT`). -/
inductive STACKTRACE_CHECK_RESULT where
  | stValid
  | stUnknownModule
  | stUnknownMemory
  | stWindowsHooks
deriving DecidableEq, Repr

/-- Verdict of the policy collaborator (`Notifier::THREAT_DECISION`). -/
inductive THREAT_DECISION where
  | tdAllow
  | tdBlockOrIgnore
  | tdBlockOrTerminate
  | tdTerminate
deriving DecidableEq, Repr

/-- Status code returned for a rejected load (value of the platform header). -/
def STATUS_NOT_FOUND : Nat := 0xC0000225

/-- Arguments of one `LdrLoadDll` call.  `ModuleFileName` is the string the
`UNICODE_STRING` holds (`ModuleName` in the hook); `ModuleHandle` is `none`
for a null output pointer and `some v` for a pointer to a slot that holds
`v` when the call is made. -/
structure LoadRequest where
  PathToFile : Nat
  Flags : Nat
  ModuleFileName : List Nat
  ModuleHandle : Option Nat
deriving DecidableEq, Repr

/-- External collaborators as one invocation of the hook sees them:
`CheckStackTrace` yields the check result and the unknown frame,
`CallOriginal` yields the status of the real loader and the content it
leaves in the output slot. -/
structure Collaborators where
  CheckStackTrace : STACKTRACE_CHECK_RESULT × Nat
  ReportUnknownOriginModload : Nat → List Nat → THREAT_DECISION
  ReportWinHooks : List Nat → THREAT_DECISION
  IsSystemFile : List Nat → Bool
  CallOriginal : LoadRequest → Nat × Option Nat

/-- Calls the hook makes to its collaborators, in program order. -/
inductive Event where
  | checkStackTrace
  | isSystemFile (ModuleName : List Nat)
  | reportUnknownOriginModload (UnknownFrame : Nat) (ModuleName : List Nat)
  | reportWinHooks (ModuleName : List Nat)
  | callOriginal (args : LoadRequest)
  | fastfail (code : Nat)
deriving DecidableEq, Repr

/-- The event is the process abort `__fastfail`. -/
def Event.isFastfail : Event → Bool
  | Event.fastfail _ => true
  | _ => false

/-- The event is a call of the real loader. -/
def Event.isCallOriginal : Event → Bool
  | Event.callOriginal _ => true
  | _ => false

/-- The event is a call of one of the two policy entry points. -/
def Event.isPolicyCall : Event → Bool
  | Event.reportUnknownOriginModload _ _ => true
  | Event.reportWinHooks _ => true
  | _ => false

/-- How an invocation of the hook ends: it returns a status with the content
of the caller's output slot, or the process is aborted by `__fastfail`. -/
inductive Outcome where
  | returned (Status : Nat) (ModuleHandle : Option Nat)
  | aborted
deriving DecidableEq, Repr

/-- The two seen-name sets of `FilterData`. -/
structure FilterState where
  KnownModulesNames : List (List Nat)
  IgnoredModules : List (List Nat)
deriving DecidableEq, Repr

/-- State, outcome and collaborator calls of one hook invocation. -/
structure HookResult where
  state : FilterState
  outcome : Outcome
  trace : List Event

/-- Statement `return CallOriginal(LdrLoadDll)(PathToFile, Flags,
ModuleFileName, ModuleHandle)`. -/
def returnOriginal (env : Collaborators) (FilterData : FilterState) (args : LoadRequest)
    (trace : List Event) : HookResult :=
  { state := FilterData
    outcome := Outcome.returned (env.CallOriginal args).1 (env.CallOriginal args).2
    trace := trace ++ [Event.callOriginal args] }

/-- Statement `if (ModuleHandle) *ModuleHandle = NULL`. -/
def clearHandle : Option Nat → Option Nat
  | none => none
  | some _ => some 0

/-- The "final decision handling" switch and the rejection that follows it. -/
def decisionHandling (env : Collaborators) (FilterData : FilterState) (args : LoadRequest)
    (CheckResult : STACKTRACE_CHECK_RESULT) (Decision : THREAT_DECISION)
    (trace : List Event) : HookResult :=
  match Decision with
  | THREAT_DECISION.tdAllow => returnOriginal env FilterData args trace
  | THREAT_DECISION.tdTerminate =>
    { state := FilterData, outcome := Outcome.aborted, trace := trace ++ [Event.fastfail 0] }
  | THREAT_DECISION.tdBlockOrIgnore | THREAT_DECISION.tdBlockOrTerminate =>
    let FilterData1 : FilterState :=
      if CheckResult = STACKTRACE_CHECK_RESULT.stWindowsHooks then
        { FilterData with
          IgnoredModules := ModulesNamesStorage.Add FilterData.IgnoredModules args.ModuleFileName }
      else FilterData
    { state := FilterData1
      outcome := Outcome.returned STATUS_NOT_FOUND (clearHandle args.ModuleHandle)
      trace := trace }

/-- The `LdrLoadDll` hook. -/
def LdrLoadDll (env : Collaborators) (FilterData : FilterState) (args : LoadRequest) :
    HookResult :=
  let ModuleName := args.ModuleFileName
  if ModulesNamesStorage.Exists FilterData.KnownModulesNames ModuleName then
    returnOriginal env FilterData args []
  else if ModulesNamesStorage.Exists FilterData.IgnoredModules ModuleName then
    { state := FilterData
      outcome := Outcome.returned STATUS_NOT_FOUND args.ModuleHandle
      trace := [] }
  else
    let UnknownFrame := env.CheckStackTrace.2
    match env.CheckStackTrace.1 with
    | STACKTRACE_CHECK_RESULT.stValid =>
      returnOriginal env
        { FilterData with
          KnownModulesNames := ModulesNamesStorage.Add FilterData.KnownModulesNames ModuleName }
        args [Event.checkStackTrace]
    | STACKTRACE_CHECK_RESULT.stUnknownModule =>
      decisionHandling env FilterData args STACKTRACE_CHECK_RESULT.stUnknownModule
        (env.ReportUnknownOriginModload UnknownFrame ModuleName)
        [Event.checkStackTrace, Event.reportUnknownOriginModload UnknownFrame ModuleName]
    | STACKTRACE_CHECK_RESULT.stUnknownMemory =>
      decisionHandling env FilterData args STACKTRACE_CHECK_RESULT.stUnknownMemory
        (env.ReportUnknownOriginModload UnknownFrame ModuleName)
        [Event.checkStackTrace, Event.reportUnknownOriginModload UnknownFrame ModuleName]
    | STACKTRACE_CHECK_RESULT.stWindowsHooks =>
      if env.IsSystemFile ModuleName then
        returnOriginal env
          { FilterData with
            KnownModulesNames := ModulesNamesStorage.Add FilterData.KnownModulesNames ModuleName }
          args [Event.checkStackTrace, Event.isSystemFile ModuleName]
      else
        decisionHandling env FilterData args STACKTRACE_CHECK_RESULT.stWindowsHooks
          (env.ReportWinHooks ModuleName)
          [Event.checkStackTrace, Event.isSystemFile ModuleName, Event.reportWinHooks ModuleName]

/-- Sequential hook invocations, each with its own collaborator answers; the
run ends when an invocation aborts the process. -/
def runLoads : FilterState → List (Collaborators × LoadRequest) → FilterState
  | FilterData, [] => FilterData
  | FilterData, (env, args) :: rest =>
    match (LdrLoadDll env FilterData args).outcome with
    | Outcome.aborted => (LdrLoadDll env FilterData args).state
    | Outcome.returned _ _ => runLoads (LdrLoadDll env FilterData args).state rest

/-! ## Enumeration of the loader list -/

/-- Counted wide string (`UNICODE_STRING`): `Length` is the length in bytes,
`Buffer` is `none` for a null pointer, else the characters stored from the
buffer on (at least `Length / sizeof(WCHAR)` of them). -/
structure UNICODE_STRING where
  Length : Nat
  Buffer : Option (List Nat)
deriving DecidableEq, Repr

/-- Record of the loader list (`PebTeb::LDR_MODULE`), reduced to the fields
`EnumModulesCallback` reads. -/
structure LDR_MODULE where
  BaseAddress : Nat
  SizeOfImage : Nat
  FullDllName : UNICODE_STRING
  BaseDllName : UNICODE_STRING
deriving DecidableEq, Repr

/-- What one iteration of the walk in `EnumModulesSafe` meets: a record it can
read, a null record pointer, or an access fault raised while the record (or
the image it describes) is touched. -/
inductive LdrNode where
  | entry (Module : LDR_MODULE)
  | null
  | fault
deriving DecidableEq, Repr

namespace KnownModulesStorage

/-- Test `Name.Buffer && Name.Length` of `EnumModulesCallback` together with
the copy that follows when the string is chosen: `none` when the buffer or
the byte length is null, else the `Length / sizeof(WCHAR)` characters that
`resize` and `memcpy` leave in `Info.Name`. -/
def nameChars (Name : UNICODE_STRING) : Option (List Nat) :=
  match Name.Buffer with
  | none => none
  | some chars => if Name.Length = 0 then none else some (chars.take (Name.Length / 2))

/-- Name chosen by `EnumModulesCallback`: the full name when its buffer and
length are non-null, else the short name when its buffer and length are
non-null, else the empty string. -/
def pickName (FullDllName BaseDllName : UNICODE_STRING) : List Nat :=
  match nameChars FullDllName with
  | some Name => Name
  | none =>
    match nameChars BaseDllName with
    | some Name => Name
    | none => []

/-- Callback `EnumModulesCallback(Module, &Local)` on a readable record: the
flag tells whether the enumeration continues. -/
def EnumModulesCallback (t1ha0 : List Nat → Nat → Nat) (mem : Memory) (Module : LDR_MODULE)
    (Local : Registry) : Bool × Registry :=
  if Module.BaseAddress = 0 then (false, Local)
  else
    let Sections := FillExecutableSection mem Module.BaseAddress
    (true,
      StdMap.emplace Local Module.BaseAddress
        { Base := Module.BaseAddress
          Hash := CalcModuleHashSafe t1ha0 mem Sections
          Size := Module.SizeOfImage
          Name := pickName Module.FullDllName Module.BaseDllName
          ExecutableSections := Sections })

/-- Walk `EnumModulesSafe(EnumModulesCallback, &Local)` over the records met
in load order (the list ends where `Flink` is the list header; the loop body
runs before that test, so a walk meets at least one record and the empty
list only stands for the end of the walk): the result is `FALSE` when a
fault reaches the `__except` handler, `TRUE` otherwise, together with the
content of `Local` at that point. -/
def EnumModulesSafe (t1ha0 : List Nat → Nat → Nat) (mem : Memory) :
    List LdrNode → Registry → Bool × Registry
  | [], Local => (true, Local)
  | LdrNode.fault :: _, Local => (false, Local)
  | LdrNode.null :: _, Local => (true, Local)
  | LdrNode.entry Module :: rest, Local =>
    match EnumModulesCallback t1ha0 mem Module Local with
    | (false, Local1) => (true, Local1)
    | (true, Local1) => EnumModulesSafe t1ha0 mem rest Local1

/-- Sweep `Collect()`: enumerates into a fresh `Local` and swaps it in; the
result of `EnumModulesSafe` is not looked at. -/
def Collect (t1ha0 : List Nat → Nat → Nat) (mem : Memory) (ldr : List LdrNode)
    (_Modules : Registry) : Registry :=
  (EnumModulesSafe t1ha0 mem ldr []).2

end KnownModulesStorage

/-! ## Sequences of registry calls -/

/-- One `Add` or `Remove` call on the registry; an `Add` carries the memory
state in which it runs. -/
inductive RegistryCall where
  | Add (mem : Memory) (hModule Size : Nat) (Name : Option (List Nat))
  | Remove (hModule : Nat)

/-- The call is an `Add` for base `b`. -/
def RegistryCall.isAddOf (b : Nat) : RegistryCall → Bool
  | RegistryCall.Add _ hModule _ _ => hModule == b
  | RegistryCall.Remove _ => false

/-- The call is an `Add` for base `b` with a non-zero size. -/
def RegistryCall.isSizedAddOf (b : Nat) : RegistryCall → Bool
  | RegistryCall.Add _ hModule Size _ => hModule == b && Size != 0
  | RegistryCall.Remove _ => false

/-- The call is a `Remove` for base `b`. -/
def RegistryCall.isRemoveOf (b : Nat) : RegistryCall → Bool
  | RegistryCall.Add _ _ _ _ => false
  | RegistryCall.Remove hModule => hModule == b

/-- Effect of one call on the registry. -/
def applyCall (t1ha0 : List Nat → Nat → Nat) (Modules : Registry) : RegistryCall → Registry
  | RegistryCall.Add mem hModule Size Name =>
    KnownModulesStorage.Add t1ha0 mem Modules hModule Size Name
  | RegistryCall.Remove hModule => KnownModulesStorage.Remove Modules hModule

/-- Effect of a sequence of calls, first call first. -/
def applyCalls (t1ha0 : List Nat → Nat → Nat) : Registry → List RegistryCall → Registry
  | Modules, [] => Modules
  | Modules, call :: rest => applyCalls t1ha0 (applyCall t1ha0 Modules call) rest

/-- One mutating call on the registry, with the memory state (and, for
`Collect`, the loader list) in which it runs. -/
inductive RegistryOp where
  | Collect (mem : Memory) (ldr : List LdrNode)
  | Add (mem : Memory) (hModule Size : Nat) (Name : Option (List Nat))
  | Remove (hModule : Nat)
  | Clear
  | RehashModule (mem : Memory) (hModule : Nat)

/-- Effect of one mutating call on the registry. -/
def applyOp (t1ha0 : List Nat → Nat → Nat) (Modules : Registry) : RegistryOp → Registry
  | RegistryOp.Collect mem ldr => KnownModulesStorage.Collect t1ha0 mem ldr Modules
  | RegistryOp.Add mem hModule Size Name =>
    KnownModulesStorage.Add t1ha0 mem Modules hModule Size Name
  | RegistryOp.Remove hModule => KnownModulesStorage.Remove Modules hModule
  | RegistryOp.Clear => KnownModulesStorage.Clear Modules
  | RegistryOp.RehashModule mem hModule =>
    KnownModulesStorage.RehashModule t1ha0 mem Modules hModule

/-- Effect of a sequence of mutating calls, first call first. -/
def applyOps (t1ha0 : List Nat → Nat → Nat) : Registry → List RegistryOp → Registry
  | Modules, [] => Modules
  | Modules, op :: rest => applyOps t1ha0 (applyOp t1ha0 Modules op) rest

/-- Every descriptor with an empty executable-section list stores the
fingerprint `0`. -/
def EmptySectionsInv (Modules : Registry) : Prop :=
  ∀ e ∈ Modules, e.2.ExecutableSections = [] → e.2.Hash = 0

/-- No name is in both seen-name sets. -/
def FilterState.Disjoint (FilterData : FilterState) : Prop :=
  ∀ n, ¬ (ModulesNamesStorage.Exists FilterData.KnownModulesNames n = true
    ∧ ModulesNamesStorage.Exists FilterData.IgnoredModules n = true)

/-- Invariant of the registry: keys strictly ascending, every descriptor
stored under its own non-null base. -/
def RegistryInv (Modules : Registry) : Prop :=
  List.Pairwise (fun e f => e.1 < f.1) Modules ∧ ∀ e ∈ Modules, e.2.Base = e.1 ∧ e.1 ≠ 0

/-- Range of a descriptor: `Address` lies in `[Base, Base + Size)`, the sum
taken in the natural numbers. -/
def MODULE_INFO.contains (Info : MODULE_INFO) (Address : Nat) : Prop :=
  Info.Base ≤ Address ∧ Address < Info.Base + Info.Size

/-! ## Concrete inputs used by the witnesses -/

/-- Toy stand-in for the external hash: sum of the bytes plus the seed. -/
def sumHash (bs : List Nat) (seed : Nat) : Nat := bs.sum + seed

/-- Memory in which every byte reads `1` and the image at any base has one
code section of four bytes at offset `0x10`. -/
def onesMemory : Memory :=
  { byte := fun _ => some 1
    sectionTable := fun _ => [⟨4, 0x10, 0x60000020⟩] }

/-- Registry reached from the empty one by `Add(0x1000, 0x3000, NULL)` and
`Add(0x2000, 0x1000, NULL)`: the second range lies inside the first. -/
def overlapRegistry : Registry :=
  KnownModulesStorage.Add sumHash onesMemory
    (KnownModulesStorage.Add sumHash onesMemory [] 0x1000 0x3000 none) 0x2000 0x1000 none

/-- Memory at registration time: the image at any base has two executable
sections of two bytes, at offsets `0x10` and `0x20`; the bytes at `0x1020`
and `0x1021` read `2`, every other byte reads `1`. -/
def twoSectionMemory : Memory :=
  { byte := fun a => if a = 0x1020 ∨ a = 0x1021 then some 2 else some 1
    sectionTable := fun _ => [⟨2, 0x10, 0x00000020⟩, ⟨2, 0x20, 0x20000000⟩] }

/-- The memory of `twoSectionMemory` after the bytes at `0x1020` and `0x1021`
were overwritten with `3`. -/
def tamperedMemory : Memory :=
  { byte := fun a => if a = 0x1020 ∨ a = 0x1021 then some 3 else some 1
    sectionTable := fun _ => [⟨2, 0x10, 0x00000020⟩, ⟨2, 0x20, 0x20000000⟩] }

/-- The memory of `twoSectionMemory` after the bytes at `0x1020` and `0x1021`
were overwritten with `1`, the content of the first section. -/
def patchedMemory : Memory :=
  { byte := fun _ => some 1
    sectionTable := fun _ => [⟨2, 0x10, 0x00000020⟩, ⟨2, 0x20, 0x20000000⟩] }

/-- Registry after `Add(0x1000, 0x2000, NULL)` in `twoSectionMemory`. -/
def twoSectionRegistry : Registry :=
  KnownModulesStorage.Add sumHash twoSectionMemory [] 0x1000 0x2000 none

/-- Collaborators that answer with the given stack-check result (unknown
frame `0x4444`), the given verdict from both policy entry points and the
given oracle answer; the real loader succeeds and stores handle `0x5000`. -/
def fixedCollaborators (check : STACKTRACE_CHECK_RESULT) (verdict : THREAT_DECISION)
    (trusted : Bool) : Collaborators :=
  { CheckStackTrace := (check, 0x4444)
    ReportUnknownOriginModload := fun _ _ => verdict
    ReportWinHooks := fun _ => verdict
    IsSystemFile := fun _ => trusted
    CallOriginal := fun args => (0, args.ModuleHandle.map fun _ => 0x5000) }

/-- Load request for the name "a.dll" with an output slot that holds `0x7FF0`. -/
def sampleRequest : LoadRequest :=
  { PathToFile := 0, Flags := 0, ModuleFileName := [97, 46, 100, 108, 108],
    ModuleHandle := some 0x7FF0 }

/-- Loader list whose first record describes an image at `0x3000` and whose
second record faults when it is touched. -/
def faultingLdr : List LdrNode :=
  [LdrNode.entry ⟨0x3000, 0x1000, ⟨0, none⟩, ⟨0, none⟩⟩, LdrNode.fault]

/-- Loader list with one record: an image at `0x3000` with `SizeOfImage` zero. -/
def zeroSizeLdr : List LdrNode :=
  [LdrNode.entry ⟨0x3000, 0, ⟨0, none⟩, ⟨0, none⟩⟩]

/-- Memory in which every byte reads `1` and the image at any base has one
section, initialised data that is neither code nor executable. -/
def dataOnlyMemory : Memory :=
  { byte := fun _ => some 1
    sectionTable := fun _ => [⟨4, 0x10, 0x40000040⟩] }

/-- Registry after `Add(0x1000, 0x2000, NULL)` in `dataOnlyMemory`. -/
def dataOnlyRegistry : Registry :=
  KnownModulesStorage.Add sumHash dataOnlyMemory [] 0x1000 0x2000 none

/-! ## Container lemmas -/

namespace StdMap

theorem find_emplace {V : Type} (l : List (Nat × V)) (key : Nat) (v : V) (b : Nat) :
    (find (emplace l key v) b).isSome = (decide (b = key) || (find l b).isSome) := by
  induction l with
  | nil =>
    by_cases h : key = b
    · subst h
      simp [emplace, find]
    · have h2 : ¬ b = key := fun e => h e.symm
      simp [emplace, find, h, h2]
  | cons e rest ih =>
    obtain ⟨k, w⟩ := e
    simp only [emplace]
    split_ifs with h1 h2
    · by_cases h : key = b
      · subst h
        simp [find]
      · have h3 : ¬ b = key := fun e => h e.symm
        simp [find, h, h3]
    · subst h2
      by_cases h : key = b
      · subst h
        simp [find]
      · have h3 : ¬ b = key := fun e => h e.symm
        simp [find, h, h3]
    · by_cases h : k = b
      · subst h
        simp [find]
      · simp [find, h, ih]

theorem find_erase {V : Type} (l : List (Nat × V)) (key b : Nat) :
    find (erase l key) b = if b = key then none else find l b := by
  induction l with
  | nil => simp [erase, find]
  | cons e rest ih =>
    obtain ⟨k, w⟩ := e
    by_cases h1 : k = key
    · subst h1
      by_cases h : b = k
      · subst h
        simp [erase, ih]
      · have h2 : ¬ k = b := fun e => h e.symm
        simp [erase, find, ih, h, h2]
    · by_cases h : k = b
      · subst h
        simp [erase, find, h1]
      · simp [erase, find, h1, h, ih]

theorem mem_emplace {V : Type} (l : List (Nat × V)) (key : Nat) (v : V) (e : Nat × V)
    (he : e ∈ emplace l key v) : e = (key, v) ∨ e ∈ l := by
  induction l with
  | nil =>
    simp only [emplace, List.mem_singleton] at he
    exact Or.inl he
  | cons x rest ih =>
    obtain ⟨k, w⟩ := x
    simp only [emplace] at he
    split_ifs at he with h1 h2
    · rcases List.mem_cons.1 he with h | h
      · exact Or.inl h
      · exact Or.inr h
    · exact Or.inr he
    · rcases List.mem_cons.1 he with h | h
      · exact Or.inr (h ▸ List.mem_cons_self _ _)
      · rcases ih h with h3 | h3
        · exact Or.inl h3
        · exact Or.inr (List.mem_cons_of_mem _ h3)

theorem emplace_sorted {V : Type} (l : List (Nat × V)) (key : Nat) (v : V)
    (hl : List.Pairwise (fun e f => e.1 < f.1) l) :
    List.Pairwise (fun e f => e.1 < f.1) (emplace l key v) := by
  induction l with
  | nil => simp [emplace]
  | cons x rest ih =>
    obtain ⟨k, w⟩ := x
    rw [List.pairwise_cons] at hl
    simp only [emplace]
    split_ifs with h1 h2
    · refine List.pairwise_cons.2 ⟨?_, List.pairwise_cons.2 hl⟩
      intro f hf
      rcases List.mem_cons.1 hf with h | h
      · subst h
        exact h1
      · exact lt_trans h1 (hl.1 f h)
    · exact List.pairwise_cons.2 hl
    · refine List.pairwise_cons.2 ⟨?_, ih hl.2⟩
      intro f hf
      rcases mem_emplace rest key v f hf with h | h
      · subst h
        show k < key
        omega
      · exact hl.1 f h

theorem erase_eq_filter {V : Type} (l : List (Nat × V)) (key : Nat) :
    erase l key = l.filter (fun e => decide (e.1 ≠ key)) := by
  induction l with
  | nil => rfl
  | cons x rest ih =>
    obtain ⟨k, w⟩ := x
    by_cases h : k = key
    · simp [erase, h, ih]
    · simp [erase, h, ih]

theorem find_eq_some_of_mem {V : Type} (l : List (Nat × V))
    (hl : List.Pairwise (fun e f => e.1 < f.1) l) (e : Nat × V) (he : e ∈ l) :
    find l e.1 = some e.2 := by
  induction l with
  | nil => cases he
  | cons x rest ih =>
    obtain ⟨k, w⟩ := x
    rw [List.pairwise_cons] at hl
    rcases List.mem_cons.1 he with h | h
    · subst h
      simp [find]
    · have hlt := hl.1 e h
      have hne : ¬ k = e.1 := by
        simp only at hlt
        omega
      simp only [find, if_neg hne]
      exact ih hl.2 h

theorem mem_of_find_eq_some {V : Type} (l : List (Nat × V)) (key : Nat) (v : V)
    (h : find l key = some v) : (key, v) ∈ l := by
  induction l with
  | nil => simp [find] at h
  | cons x rest ih =>
    obtain ⟨k, w⟩ := x
    by_cases hk : k = key
    · subst hk
      simp only [find, if_true, Option.some.injEq] at h
      subst h
      exact List.mem_cons_self _ _
    · simp only [find, if_neg hk] at h
      exact List.mem_cons_of_mem _ (ih h)

end StdMap

namespace StdSet

theorem mem_emplace_iff (l : List Nat) (x b : Nat) : b ∈ emplace l x ↔ b = x ∨ b ∈ l := by
  induction l with
  | nil => simp [emplace]
  | cons y rest ih =>
    simp only [emplace]
    split_ifs with h1 h2
    · simp
    · subst h2
      simp
    · rw [List.mem_cons, ih, List.mem_cons]
      tauto

theorem set_emplace_sorted (l : List Nat) (x : Nat) (hl : List.Pairwise (fun a b => a < b) l) :
    List.Pairwise (fun a b => a < b) (emplace l x) := by
  induction l with
  | nil => simp [emplace]
  | cons y rest ih =>
    rw [List.pairwise_cons] at hl
    simp only [emplace]
    split_ifs with h1 h2
    · refine List.pairwise_cons.2 ⟨?_, List.pairwise_cons.2 hl⟩
      intro z hz
      rcases List.mem_cons.1 hz with h | h
      · subst h
        exact h1
      · exact lt_trans h1 (hl.1 z h)
    · exact List.pairwise_cons.2 hl
    · refine List.pairwise_cons.2 ⟨?_, ih hl.2⟩
      intro z hz
      rcases (mem_emplace_iff rest x z).1 hz with h | h
      · subst h
        omega
      · exact hl.1 z h

end StdSet

/-! ## Registry lemmas -/

namespace KnownModulesStorage

theorem present_Add (t1ha0 : List Nat → Nat → Nat) (mem : Memory) (Modules : Registry)
    (hModule Size : Nat) (Name : Option (List Nat)) (b : Nat) :
    IsModulePresent (Add t1ha0 mem Modules hModule Size Name) b =
      ((decide (hModule ≠ 0) && decide (Size ≠ 0) && decide (b = hModule))
        || IsModulePresent Modules b) := by
  unfold Add IsModulePresent
  by_cases h : hModule = 0 ∨ Size = 0
  · rw [if_pos h]
    rcases h with h | h <;> simp [h]
  · rw [if_neg h]
    push_neg at h
    simp [StdMap.find_emplace, h.1, h.2]

theorem present_Remove (Modules : Registry) (hModule b : Nat) :
    IsModulePresent (Remove Modules hModule) b =
      (!(decide (hModule ≠ 0) && decide (b = hModule)) && IsModulePresent Modules b) := by
  unfold Remove IsModulePresent
  by_cases h : hModule = 0
  · simp [h]
  · rw [if_neg h, StdMap.find_erase]
    by_cases hb : b = hModule <;> simp [h, hb]

theorem RegistryInv_nil : RegistryInv [] := by
  simp [RegistryInv]

theorem RegistryInv_Add (t1ha0 : List Nat → Nat → Nat) (mem : Memory) (Modules : Registry)
    (hModule Size : Nat) (Name : Option (List Nat)) (hinv : RegistryInv Modules) :
    RegistryInv (Add t1ha0 mem Modules hModule Size Name) := by
  unfold Add
  by_cases h : hModule = 0 ∨ Size = 0
  · rw [if_pos h]
    exact hinv
  · rw [if_neg h]
    push_neg at h
    refine ⟨StdMap.emplace_sorted _ _ _ hinv.1, ?_⟩
    intro e he
    rcases StdMap.mem_emplace _ _ _ e he with h1 | h1
    · subst h1
      exact ⟨rfl, h.1⟩
    · exact hinv.2 e h1

theorem RegistryInv_Remove (Modules : Registry) (hModule : Nat) (hinv : RegistryInv Modules) :
    RegistryInv (Remove Modules hModule) := by
  unfold Remove
  by_cases h : hModule = 0
  · rw [if_pos h]
    exact hinv
  · rw [if_neg h, StdMap.erase_eq_filter]
    refine ⟨hinv.1.filter _, ?_⟩
    intro e he
    exact hinv.2 e (List.mem_of_mem_filter he)

theorem RegistryInv_Clear (Modules : Registry) : RegistryInv (Clear Modules) :=
  RegistryInv_nil

theorem setHash_keys (t1ha0 : List Nat → Nat → Nat) (mem : Memory) (Modules : Registry)
    (key : Nat) :
    (setHash t1ha0 mem Modules key).map (fun e => (e.1, e.2.Base))
      = Modules.map (fun e => (e.1, e.2.Base)) := by
  induction Modules with
  | nil => rfl
  | cons e rest ih =>
    obtain ⟨k, Info⟩ := e
    by_cases h : k = key
    · simp [setHash, h]
    · simp [setHash, h, ih]

theorem RegistryInv_iff_keys (Modules : Registry) :
    RegistryInv Modules ↔
      List.Pairwise (fun e f : Nat × Nat => e.1 < f.1) (Modules.map fun e => (e.1, e.2.Base))
        ∧ ∀ p ∈ Modules.map (fun e => (e.1, e.2.Base)), p.2 = p.1 ∧ p.1 ≠ 0 := by
  unfold RegistryInv
  rw [List.pairwise_map]
  simp only [List.mem_map, forall_exists_index, and_imp]
  constructor
  · rintro ⟨h1, h2⟩
    refine ⟨h1, ?_⟩
    intro p e he hp
    subst hp
    exact h2 e he
  · rintro ⟨h1, h2⟩
    exact ⟨h1, fun e he => h2 _ e he rfl⟩

theorem RegistryInv_RehashModule (t1ha0 : List Nat → Nat → Nat) (mem : Memory)
    (Modules : Registry) (hModule : Nat) (hinv : RegistryInv Modules) :
    RegistryInv (RehashModule t1ha0 mem Modules hModule) := by
  unfold RehashModule
  by_cases h : hModule = 0
  · rw [if_pos h]
    exact hinv
  · rw [if_neg h, RegistryInv_iff_keys, setHash_keys]
    exact (RegistryInv_iff_keys Modules).1 hinv

theorem find_null (Modules : Registry) (hinv : RegistryInv Modules) :
    StdMap.find Modules 0 = none := by
  cases h : StdMap.find Modules 0 with
  | none => rfl
  | some Info => exact absurd rfl (hinv.2 _ (StdMap.mem_of_find_eq_some _ _ _ h)).2

theorem RegistryInv_tail (e : Nat × MODULE_INFO) (rest : Registry)
    (hinv : RegistryInv (e :: rest)) : RegistryInv rest :=
  ⟨(List.pairwise_cons.1 hinv.1).2, fun f hf => hinv.2 f (List.mem_cons_of_mem _ hf)⟩

theorem getModuleBase_none (ptrBits : Nat) (Modules : Registry) (Address : Nat)
    (hno : ∀ e ∈ Modules, ¬ e.2.contains Address) :
    GetModuleBase ptrBits Modules Address = 0 := by
  induction Modules with
  | nil => rfl
  | cons e rest ih =>
    obtain ⟨key, Info⟩ := e
    simp only [GetModuleBase]
    split_ifs with h1 h2
    · rfl
    · exact absurd ⟨h2.1, lt_of_lt_of_le h2.2 (Nat.mod_le _ _)⟩
        (hno (key, Info) (List.mem_cons_self _ _))
    · exact ih fun f hf => hno f (List.mem_cons_of_mem _ hf)

theorem getModuleBase_some (ptrBits : Nat) (Modules : Registry) (hinv : RegistryInv Modules)
    (hfit : ∀ e ∈ Modules, e.2.Base + e.2.Size < 2 ^ ptrBits) (Address : Nat)
    (e : Nat × MODULE_INFO) (he : e ∈ Modules) (hc : e.2.contains Address) :
    ∃ f ∈ Modules, f.2.contains Address ∧ GetModuleBase ptrBits Modules Address = f.2.Base
      ∧ f.2.Base ≠ 0 ∧ ∀ g ∈ Modules, g.2.contains Address → f.2.Base ≤ g.2.Base := by
  induction Modules with
  | nil => cases he
  | cons x rest ih =>
    obtain ⟨key, Info⟩ := x
    have hhead := hinv.2 (key, Info) (List.mem_cons_self _ _)
    have hsorted := (List.pairwise_cons.1 hinv.1).1
    have hwrap : (Info.Base + Info.Size) % 2 ^ ptrBits = Info.Base + Info.Size :=
      Nat.mod_eq_of_lt (hfit (key, Info) (List.mem_cons_self _ _))
    simp only at hhead
    have hbase : ∀ g ∈ (key, Info) :: rest, key ≤ g.2.Base := by
      intro g hg
      rcases List.mem_cons.1 hg with h | h
      · subst h
        exact le_of_eq hhead.1.symm
      · have h1 := hsorted g h
        have h2 := (hinv.2 g (List.mem_cons_of_mem _ h)).1
        simp only at h1
        omega
    simp only [GetModuleBase, hwrap]
    split_ifs with h1 h2
    · have h3 := hbase e he
      have h4 := hc.1
      omega
    · refine ⟨(key, Info), List.mem_cons_self _ _, h2, rfl, ?_, ?_⟩
      · rw [hhead.1]
        exact hhead.2
      · intro g hg _
        have h3 := hbase g hg
        simp only
        omega
    · have hrest : e ∈ rest := by
        rcases List.mem_cons.1 he with h | h
        · subst h
          exact absurd hc h2
        · exact h
      obtain ⟨f, hf, hfc, hfeq, hfne, hfmin⟩ := ih (RegistryInv_tail _ _ hinv)
        (fun g hg => hfit g (List.mem_cons_of_mem _ hg)) hrest
      refine ⟨f, List.mem_cons_of_mem _ hf, hfc, hfeq, hfne, ?_⟩
      intro g hg hgc
      rcases List.mem_cons.1 hg with h | h
      · subst h
        exact absurd hgc h2
      · exact hfmin g h hgc

theorem getModuleBase_wrapping_range :
    (0x00400000 ≤ 0x00500000 ∧ 0x00500000 < 0x00400000 + 0xFFF00000)
      ∧ GetModuleBase 32 (Add sumHash onesMemory [] 0x00400000 0xFFF00000 none) 0x00500000
        = 0 := by
  decide

theorem pickName_one_byte :
    pickName ⟨1, some [65]⟩ ⟨4, some [66, 67]⟩ = []
      ∧ pickName ⟨0, some [65]⟩ ⟨4, some [66, 67]⟩ = [66, 67]
      ∧ pickName ⟨2, some [65]⟩ ⟨4, some [66, 67]⟩ = [65] := by
  decide

theorem find_setHash (t1ha0 : List Nat → Nat → Nat) (mem : Memory) (Modules : Registry)
    (key : Nat) :
    StdMap.find (setHash t1ha0 mem Modules key) key =
      (StdMap.find Modules key).map fun Info =>
        { Info with Hash := CalcModuleHashSafe t1ha0 mem Info.ExecutableSections } := by
  induction Modules with
  | nil => rfl
  | cons e rest ih =>
    obtain ⟨k, Info⟩ := e
    by_cases h : k = key
    · simp [setHash, StdMap.find, h]
    · simp [setHash, StdMap.find, h, ih]

theorem mem_findChangedLoop (t1ha0 : List Nat → Nat → Nat) (mem : Memory) (Modules : Registry)
    (acc : List Nat) (b : Nat) :
    b ∈ findChangedLoop t1ha0 mem Modules acc ↔
      b ∈ acc ∨ ∃ e ∈ Modules, e.2.Base = b
        ∧ CalcModuleHashSafe t1ha0 mem e.2.ExecutableSections ≠ 0
        ∧ e.2.Hash ≠ CalcModuleHashSafe t1ha0 mem e.2.ExecutableSections := by
  induction Modules generalizing acc with
  | nil => simp [findChangedLoop]
  | cons x rest ih =>
    obtain ⟨k, Info⟩ := x
    simp only [findChangedLoop]
    split_ifs with h
    · rw [ih, StdSet.mem_emplace_iff]
      constructor
      · rintro ((h1 | h1) | ⟨e, he, h2⟩)
        · exact Or.inr ⟨(k, Info), List.mem_cons_self _ _, h1.symm, h.1, h.2⟩
        · exact Or.inl h1
        · exact Or.inr ⟨e, List.mem_cons_of_mem _ he, h2⟩
      · rintro (h1 | ⟨e, he, h2⟩)
        · exact Or.inl (Or.inr h1)
        · rcases List.mem_cons.1 he with h3 | h3
          · subst h3
            exact Or.inl (Or.inl h2.1.symm)
          · exact Or.inr ⟨e, h3, h2⟩
    · rw [ih]
      constructor
      · rintro (h1 | ⟨e, he, h2⟩)
        · exact Or.inl h1
        · exact Or.inr ⟨e, List.mem_cons_of_mem _ he, h2⟩
      · rintro (h1 | ⟨e, he, h2⟩)
        · exact Or.inl h1
        · rcases List.mem_cons.1 he with h3 | h3
          · subst h3
            exact absurd ⟨h2.2.1, h2.2.2⟩ h
          · exact Or.inr ⟨e, h3, h2⟩

theorem findChangedLoop_sorted (t1ha0 : List Nat → Nat → Nat) (mem : Memory)
    (Modules : Registry) (acc : List Nat) (hacc : List.Pairwise (fun a b => a < b) acc) :
    List.Pairwise (fun a b => a < b) (findChangedLoop t1ha0 mem Modules acc) := by
  induction Modules generalizing acc with
  | nil => exact hacc
  | cons x rest ih =>
    obtain ⟨k, Info⟩ := x
    simp only [findChangedLoop]
    split_ifs with h
    · exact ih _ (StdSet.set_emplace_sorted _ _ hacc)
    · exact ih _ hacc

theorem mem_FindChangedModules (t1ha0 : List Nat → Nat → Nat) (mem : Memory)
    (Modules : Registry) (hinv : RegistryInv Modules) (prev : List Nat) (b : Nat) :
    b ∈ FindChangedModules t1ha0 mem Modules prev ↔
      ∃ Info, StdMap.find Modules b = some Info
        ∧ CalcModuleHashSafe t1ha0 mem Info.ExecutableSections ≠ 0
        ∧ Info.Hash ≠ CalcModuleHashSafe t1ha0 mem Info.ExecutableSections := by
  unfold FindChangedModules StdSet.clear
  rw [mem_findChangedLoop]
  constructor
  · rintro (h | ⟨e, he, h1, h2⟩)
    · cases h
    · have hf := StdMap.find_eq_some_of_mem Modules hinv.1 e he
      rw [← (hinv.2 e he).1, h1] at hf
      exact ⟨e.2, hf, h2⟩
  · rintro ⟨Info, hf, h2⟩
    have he := StdMap.mem_of_find_eq_some _ _ _ hf
    exact Or.inr ⟨(b, Info), he, (hinv.2 _ he).1, h2⟩

end KnownModulesStorage

theorem present_applyCall (t1ha0 : List Nat → Nat → Nat) (Modules : Registry)
    (call : RegistryCall) (b : Nat) (hb : b ≠ 0) :
    KnownModulesStorage.IsModulePresent (applyCall t1ha0 Modules call) b =
      (call.isSizedAddOf b
        || (!call.isRemoveOf b && KnownModulesStorage.IsModulePresent Modules b)) := by
  cases call with
  | Add mem hModule Size Name =>
    simp only [applyCall, KnownModulesStorage.present_Add, RegistryCall.isSizedAddOf,
      RegistryCall.isRemoveOf]
    by_cases h : b = hModule
    · subst h
      by_cases hs : Size = 0 <;> simp [hb, hs]
    · have h2 : ¬ hModule = b := fun e => h e.symm
      simp [h, h2]
  | Remove hModule =>
    simp only [applyCall, KnownModulesStorage.present_Remove, RegistryCall.isSizedAddOf,
      RegistryCall.isRemoveOf]
    by_cases h : b = hModule
    · subst h
      simp [hb]
    · have h2 : ¬ hModule = b := fun e => h e.symm
      simp [h, h2]

theorem RegistryInv_applyCalls (t1ha0 : List Nat → Nat → Nat) (Modules : Registry)
    (calls : List RegistryCall) (hinv : RegistryInv Modules) :
    RegistryInv (applyCalls t1ha0 Modules calls) := by
  induction calls generalizing Modules with
  | nil => exact hinv
  | cons call rest ih =>
    cases call with
    | Add mem hModule Size Name =>
      exact ih _ (KnownModulesStorage.RegistryInv_Add t1ha0 mem Modules hModule Size Name hinv)
    | Remove hModule => exact ih _ (KnownModulesStorage.RegistryInv_Remove Modules hModule hinv)

theorem split_cons_iff (p : RegistryCall → Bool) (q : RegistryCall → Bool)
    (call : RegistryCall) (rest : List RegistryCall) :
    (∃ pre c post, call :: rest = pre ++ c :: post ∧ p c = true ∧ ∀ r ∈ post, q r = false) ↔
      (p call = true ∧ ∀ r ∈ rest, q r = false)
        ∨ ∃ pre c post, rest = pre ++ c :: post ∧ p c = true ∧ ∀ r ∈ post, q r = false := by
  constructor
  · rintro ⟨pre, c, post, heq, hp, hq⟩
    cases pre with
    | nil =>
      simp only [List.nil_append, List.cons.injEq] at heq
      obtain ⟨h1, h2⟩ := heq
      subst h1
      subst h2
      exact Or.inl ⟨hp, hq⟩
    | cons x pre1 =>
      simp only [List.cons_append, List.cons.injEq] at heq
      exact Or.inr ⟨pre1, c, post, heq.2, hp, hq⟩
  · rintro (⟨hp, hq⟩ | ⟨pre, c, post, heq, hp, hq⟩)
    · exact ⟨[], call, rest, rfl, hp, hq⟩
    · exact ⟨call :: pre, c, post, by simp [heq], hp, hq⟩

/-! ## Interceptor lemmas -/

namespace ModulesNamesStorage

theorem exists_Add (Modules : List (List Nat)) (ModuleName n : List Nat) :
    Exists (Add Modules ModuleName) n = (decide (n = ModuleName) || Exists Modules n) := by
  unfold Add Exists
  by_cases h : ModuleName ∈ Modules
  · rw [if_pos h]
    by_cases hn : n = ModuleName
    · subst hn
      simp [h]
    · simp [hn]
  · rw [if_neg h]
    simp [List.mem_cons]

end ModulesNamesStorage

theorem decisionHandling_known (env : Collaborators) (FilterData : FilterState)
    (args : LoadRequest) (CheckResult : STACKTRACE_CHECK_RESULT) (Decision : THREAT_DECISION)
    (trace : List Event) :
    (decisionHandling env FilterData args CheckResult Decision trace).state.KnownModulesNames
      = FilterData.KnownModulesNames := by
  unfold decisionHandling
  cases Decision <;> simp only [returnOriginal] <;> split_ifs <;> rfl

theorem vetted_mono_step (env : Collaborators) (FilterData : FilterState) (args : LoadRequest)
    (n : List Nat) (hn : ModulesNamesStorage.Exists FilterData.KnownModulesNames n = true) :
    ModulesNamesStorage.Exists (LdrLoadDll env FilterData args).state.KnownModulesNames n
      = true := by
  cases h1 : ModulesNamesStorage.Exists FilterData.KnownModulesNames args.ModuleFileName
  · cases h2 : ModulesNamesStorage.Exists FilterData.IgnoredModules args.ModuleFileName
    · cases hc : env.CheckStackTrace.1
      · simp [LdrLoadDll, h1, h2, hc, returnOriginal, ModulesNamesStorage.exists_Add, hn]
      · simp [LdrLoadDll, h1, h2, hc, decisionHandling_known, hn]
      · simp [LdrLoadDll, h1, h2, hc, decisionHandling_known, hn]
      · cases hs : env.IsSystemFile args.ModuleFileName
        · simp [LdrLoadDll, h1, h2, hc, hs, decisionHandling_known, hn]
        · simp [LdrLoadDll, h1, h2, hc, hs, returnOriginal, ModulesNamesStorage.exists_Add, hn]
    · simp [LdrLoadDll, h1, h2, hn]
  · simp [LdrLoadDll, h1, returnOriginal, hn]

theorem vetted_mono_run (FilterData : FilterState) (later : List (Collaborators × LoadRequest))
    (n : List Nat) (hn : ModulesNamesStorage.Exists FilterData.KnownModulesNames n = true) :
    ModulesNamesStorage.Exists (runLoads FilterData later).KnownModulesNames n = true := by
  induction later generalizing FilterData with
  | nil => exact hn
  | cons x rest ih =>
    obtain ⟨env, args⟩ := x
    simp only [runLoads]
    split
    · exact vetted_mono_step env FilterData args n hn
    · exact ih _ (vetted_mono_step env FilterData args n hn)

theorem vetted_forward (env : Collaborators) (FilterData : FilterState) (args : LoadRequest)
    (hn : ModulesNamesStorage.Exists FilterData.KnownModulesNames args.ModuleFileName = true) :
    LdrLoadDll env FilterData args = returnOriginal env FilterData args [] := by
  simp [LdrLoadDll, hn]

/-! ## Claims -/

/-- C1 (amended): for every initial registry, every non-null base `b` and
every sequence of `Add` and `Remove` calls, `IsModulePresent(b)` holds after
the sequence exactly when the sequence has an `Add` for `b` with a non-zero
size that no later `Remove` for `b` follows, or `b` was present initially and
the sequence has no `Remove` for `b`. -/
theorem presence_after_calls (t1ha0 : List Nat → Nat → Nat) (Modules : Registry)
    (calls : List RegistryCall) (b : Nat) (hb : b ≠ 0) :
    KnownModulesStorage.IsModulePresent (applyCalls t1ha0 Modules calls) b = true ↔
      (∃ pre c post, calls = pre ++ c :: post ∧ c.isSizedAddOf b = true
          ∧ ∀ r ∈ post, r.isRemoveOf b = false)
        ∨ (KnownModulesStorage.IsModulePresent Modules b = true
          ∧ ∀ r ∈ calls, r.isRemoveOf b = false) := by
  induction calls generalizing Modules with
  | nil => simp [applyCalls]
  | cons call rest ih =>
    rw [applyCalls, ih, split_cons_iff, present_applyCall t1ha0 Modules call b hb,
      List.forall_mem_cons]
    have key : ∀ (S N : Prop) (a r p : Bool),
        (S ∨ ((a || (!r && p)) = true ∧ N)) ↔
          ((a = true ∧ N) ∨ S) ∨ (p = true ∧ r = false ∧ N) := by
      intro S N a r p
      cases a <;> cases r <;> cases p <;> simp <;> tauto
    exact key _ _ _ _ _

/-- Witness for C1 (amended): one sized `Add` registers base `0x1000`. -/
theorem presence_after_calls_witness :
    KnownModulesStorage.IsModulePresent
        (applyCalls sumHash [] [RegistryCall.Add onesMemory 0x1000 0x2000 none]) 0x1000 = true ↔
      (∃ pre c post, [RegistryCall.Add onesMemory 0x1000 0x2000 none] = pre ++ c :: post
          ∧ c.isSizedAddOf 0x1000 = true ∧ ∀ r ∈ post, r.isRemoveOf 0x1000 = false)
        ∨ (KnownModulesStorage.IsModulePresent [] 0x1000 = true
          ∧ ∀ r ∈ [RegistryCall.Add onesMemory 0x1000 0x2000 none],
              r.isRemoveOf 0x1000 = false) :=
  presence_after_calls sumHash [] [RegistryCall.Add onesMemory 0x1000 0x2000 none] 0x1000
    (by decide)

/-- C1 as stated fails: after the single call `Add(0x1000, 0, NULL)` on the
empty registry the sequence holds an `Add` for `0x1000` with no later
`Remove`, yet `IsModulePresent(0x1000)` is false. -/
theorem presence_after_calls_counterexample :
    ¬ (KnownModulesStorage.IsModulePresent
          (applyCalls sumHash [] [RegistryCall.Add onesMemory 0x1000 0 none]) 0x1000 = true ↔
        ∃ pre c post, [RegistryCall.Add onesMemory 0x1000 0 none] = pre ++ c :: post
          ∧ c.isAddOf 0x1000 = true ∧ ∀ r ∈ post, r.isRemoveOf 0x1000 = false) := by
  intro h
  have hp : KnownModulesStorage.IsModulePresent
      (applyCalls sumHash [] [RegistryCall.Add onesMemory 0x1000 0 none]) 0x1000 = false := by
    rfl
  have hq := h.2 ⟨[], RegistryCall.Add onesMemory 0x1000 0 none, [], rfl, rfl, by simp⟩
  rw [hp] at hq
  exact Bool.noConfusion hq

/-- C2 (amended): in a registry whose descriptors sit under their own
non-null bases in ascending order and whose registered ranges end below the
top of the address space (`Base + Size < 2 ^ ptrBits`, so the pointer sum does
not wrap), `GetModuleBase(a)` is `NULL` when no registered range
`[Base, Base + Size)` holds `a`; when some range holds `a` it is the non-null
base of a registered descriptor whose range holds `a`, the one with the
lowest base (hence the only one when just one range holds `a`): the early
stop skips no descriptor that holds `a`. -/
theorem getModuleBase_lowest_container (ptrBits : Nat) (Modules : Registry)
    (hinv : RegistryInv Modules)
    (hfit : ∀ e ∈ Modules, e.2.Base + e.2.Size < 2 ^ ptrBits) (Address : Nat) :
    ((∀ e ∈ Modules, ¬ e.2.contains Address) →
        KnownModulesStorage.GetModuleBase ptrBits Modules Address = 0)
      ∧ ∀ e ∈ Modules, e.2.contains Address →
        ∃ f ∈ Modules, f.2.contains Address
          ∧ KnownModulesStorage.GetModuleBase ptrBits Modules Address = f.2.Base
          ∧ f.2.Base ≠ 0
          ∧ ∀ g ∈ Modules, g.2.contains Address → f.2.Base ≤ g.2.Base :=
  ⟨KnownModulesStorage.getModuleBase_none ptrBits Modules Address,
    fun e he hc =>
      KnownModulesStorage.getModuleBase_some ptrBits Modules hinv hfit Address e he hc⟩

/-- Witness for C2 (amended): the two-module registry satisfies the invariant,
its ranges end below `2 ^ 64`, and the theorem applies to the address
`0x2800` in a 64-bit build. -/
theorem getModuleBase_lowest_container_witness :
    (RegistryInv overlapRegistry ∧ ∀ e ∈ overlapRegistry, e.2.Base + e.2.Size < 2 ^ 64)
      ∧ (((∀ e ∈ overlapRegistry, ¬ e.2.contains 0x2800) →
          KnownModulesStorage.GetModuleBase 64 overlapRegistry 0x2800 = 0)
        ∧ ∀ e ∈ overlapRegistry, e.2.contains 0x2800 →
          ∃ f ∈ overlapRegistry, f.2.contains 0x2800
            ∧ KnownModulesStorage.GetModuleBase 64 overlapRegistry 0x2800 = f.2.Base
            ∧ f.2.Base ≠ 0
            ∧ ∀ g ∈ overlapRegistry, g.2.contains 0x2800 → f.2.Base ≤ g.2.Base) :=
  have hinv : RegistryInv overlapRegistry :=
    KnownModulesStorage.RegistryInv_Add _ _ _ _ _ _
      (KnownModulesStorage.RegistryInv_Add _ _ _ _ _ _ KnownModulesStorage.RegistryInv_nil)
  have hfit : ∀ e ∈ overlapRegistry, e.2.Base + e.2.Size < 2 ^ 64 := by decide
  ⟨⟨hinv, hfit⟩, getModuleBase_lowest_container 64 overlapRegistry hinv hfit 0x2800⟩

/-- C2 as stated fails: after `Add(0x1000, 0x3000)` and `Add(0x2000, 0x1000)`
the address `0x2800` lies in both registered ranges, so no unique registered
descriptor holds it; `GetModuleBase(0x2800)` answers `0x1000` (64-bit build;
no range is near the top of the address space). -/
theorem getModuleBase_counterexample :
    KnownModulesStorage.GetModuleBase 64 overlapRegistry 0x2800 = 0x1000
      ∧ ¬ ∃! e, e ∈ overlapRegistry ∧ e.2.contains 0x2800 := by
  refine ⟨by decide, ?_⟩
  rintro ⟨e, _, huniq⟩
  have hreg : overlapRegistry =
      [(0x1000, ⟨0x1000, 518504674, 0x3000, [], [⟨0x1010, 4⟩]⟩),
        (0x2000, ⟨0x2000, 518504674, 0x1000, [], [⟨0x2010, 4⟩]⟩)] := by decide
  have h1 := huniq (0x1000, ⟨0x1000, 518504674, 0x3000, [], [⟨0x1010, 4⟩]⟩)
    ⟨by rw [hreg]; simp, by unfold MODULE_INFO.contains; decide⟩
  have h2 := huniq (0x2000, ⟨0x2000, 518504674, 0x1000, [], [⟨0x2010, 4⟩]⟩)
    ⟨by rw [hreg]; simp, by unfold MODULE_INFO.contains; decide⟩
  have h3 := congrArg Prod.fst (h1.trans h2.symm)
  simp at h3

/-- C3: in a registry that satisfies its invariant, `IsModuleValid(b)` is true
exactly when `b` is present and the fingerprint recomputed now over the
stored executable-section list equals the stored fingerprint. -/
theorem isModuleValid_iff (t1ha0 : List Nat → Nat → Nat) (mem : Memory) (Modules : Registry)
    (hinv : RegistryInv Modules) (b : Nat) :
    KnownModulesStorage.IsModuleValid t1ha0 mem Modules b = true ↔
      KnownModulesStorage.IsModulePresent Modules b = true
        ∧ ∃ Info, StdMap.find Modules b = some Info
          ∧ KnownModulesStorage.CalcModuleHashSafe t1ha0 mem Info.ExecutableSections
            = Info.Hash := by
  unfold KnownModulesStorage.IsModuleValid KnownModulesStorage.IsModulePresent
  by_cases hb : b = 0
  · subst hb
    simp [KnownModulesStorage.find_null Modules hinv]
  · rw [if_neg hb]
    cases hf : StdMap.find Modules b with
    | none => simp
    | some Info =>
      simp only [beq_iff_eq, Option.isSome_some, Option.some.injEq, true_and]
      constructor
      · intro h
        exact ⟨Info, rfl, h.symm⟩
      · rintro ⟨Info1, h1, h2⟩
        subst h1
        exact h2.symm

/-- Witness for C3: the two-module registry satisfies the invariant. -/
theorem isModuleValid_iff_witness :
    RegistryInv overlapRegistry
      ∧ (KnownModulesStorage.IsModuleValid sumHash onesMemory overlapRegistry 0x1000 = true ↔
        KnownModulesStorage.IsModulePresent overlapRegistry 0x1000 = true
          ∧ ∃ Info, StdMap.find overlapRegistry 0x1000 = some Info
            ∧ KnownModulesStorage.CalcModuleHashSafe sumHash onesMemory Info.ExecutableSections
              = Info.Hash) :=
  have hinv : RegistryInv overlapRegistry :=
    KnownModulesStorage.RegistryInv_Add _ _ _ _ _ _
      (KnownModulesStorage.RegistryInv_Add _ _ _ _ _ _ KnownModulesStorage.RegistryInv_nil)
  ⟨hinv, isModuleValid_iff sumHash onesMemory overlapRegistry hinv 0x1000⟩

/-- C4 (amended): for every registry state, every non-null base `b` present
in it and every memory state, `RehashModule(b)` followed by `IsModuleValid(b)`
in the same memory state returns true. -/
theorem rehash_then_valid (t1ha0 : List Nat → Nat → Nat) (mem : Memory) (Modules : Registry)
    (b : Nat) (hb : b ≠ 0) (hp : KnownModulesStorage.IsModulePresent Modules b = true) :
    KnownModulesStorage.IsModuleValid t1ha0 mem
      (KnownModulesStorage.RehashModule t1ha0 mem Modules b) b = true := by
  unfold KnownModulesStorage.IsModuleValid KnownModulesStorage.RehashModule
  unfold KnownModulesStorage.IsModulePresent at hp
  rw [if_neg hb, if_neg hb, KnownModulesStorage.find_setHash]
  cases hf : StdMap.find Modules b with
  | none => simp [hf] at hp
  | some Info => simp

/-- Witness for C4 (amended): base `0x2000` of the two-module registry. -/
theorem rehash_then_valid_witness :
    (0x2000 ≠ 0 ∧ KnownModulesStorage.IsModulePresent overlapRegistry 0x2000 = true)
      ∧ KnownModulesStorage.IsModuleValid sumHash onesMemory
        (KnownModulesStorage.RehashModule sumHash onesMemory overlapRegistry 0x2000) 0x2000
          = true :=
  ⟨⟨by decide, by decide⟩,
    rehash_then_valid sumHash onesMemory overlapRegistry 0x2000 (by decide) (by decide)⟩

/-- C4 as stated fails: on the empty registry `RehashModule(0x1000)` followed
by `IsModuleValid(0x1000)` returns false. -/
theorem rehash_then_valid_counterexample :
    KnownModulesStorage.IsModuleValid sumHash onesMemory
      (KnownModulesStorage.RehashModule sumHash onesMemory [] 0x1000) 0x1000 = false := by
  decide

/-- C5: in a registry that satisfies its invariant, the set left by
`FindChangedModules` holds exactly the registered bases whose freshly
recomputed fingerprint is non-zero and differs from the stored one; it is an
ascending duplicate-free set and does not depend on the previous content of
the output set.  (The method is `const`: it yields no new registry.) -/
theorem findChangedModules_exact (t1ha0 : List Nat → Nat → Nat) (mem : Memory)
    (Modules : Registry) (hinv : RegistryInv Modules) (prev : List Nat) :
    (∀ b, b ∈ KnownModulesStorage.FindChangedModules t1ha0 mem Modules prev ↔
        ∃ Info, StdMap.find Modules b = some Info
          ∧ KnownModulesStorage.CalcModuleHashSafe t1ha0 mem Info.ExecutableSections ≠ 0
          ∧ Info.Hash ≠ KnownModulesStorage.CalcModuleHashSafe t1ha0 mem Info.ExecutableSections)
      ∧ List.Pairwise (fun a b => a < b)
          (KnownModulesStorage.FindChangedModules t1ha0 mem Modules prev)
      ∧ KnownModulesStorage.FindChangedModules t1ha0 mem Modules prev
          = KnownModulesStorage.FindChangedModules t1ha0 mem Modules [] :=
  ⟨fun b => KnownModulesStorage.mem_FindChangedModules t1ha0 mem Modules hinv prev b,
    KnownModulesStorage.findChangedLoop_sorted t1ha0 mem Modules _ List.Pairwise.nil, rfl⟩

/-- Witness for C5: after the second section of the module at `0x1000` was
overwritten, the sweep reports `0x1000`, whatever the output set held. -/
theorem findChangedModules_exact_witness :
    RegistryInv twoSectionRegistry
      ∧ 0x1000 ∈ KnownModulesStorage.FindChangedModules sumHash tamperedMemory
          twoSectionRegistry [7] :=
  have hinv : RegistryInv twoSectionRegistry :=
    KnownModulesStorage.RegistryInv_Add _ _ _ _ _ _ KnownModulesStorage.RegistryInv_nil
  ⟨hinv,
    ((findChangedModules_exact sumHash tamperedMemory twoSectionRegistry hinv [7]).1 0x1000).2
      ⟨⟨0x1000, 2, 0x2000, [], [⟨0x1010, 2⟩, ⟨0x1020, 2⟩]⟩, by decide, by decide, by decide⟩⟩

/-- C6 (amended): for every registered module, if the fingerprint recomputed
over its sections after a modification is non-zero and no longer equals the
stored fingerprint, `FindChangedModules` includes the module's base. -/
theorem changed_module_reported (t1ha0 : List Nat → Nat → Nat) (mem : Memory)
    (Modules : Registry) (hinv : RegistryInv Modules) (prev : List Nat) (b : Nat)
    (Info : MODULE_INFO) (hreg : StdMap.find Modules b = some Info)
    (hdiff : KnownModulesStorage.CalcModuleHashSafe t1ha0 mem Info.ExecutableSections
      ≠ Info.Hash)
    (hnz : KnownModulesStorage.CalcModuleHashSafe t1ha0 mem Info.ExecutableSections ≠ 0) :
    b ∈ KnownModulesStorage.FindChangedModules t1ha0 mem Modules prev :=
  (KnownModulesStorage.mem_FindChangedModules t1ha0 mem Modules hinv prev b).2
    ⟨Info, hreg, hnz, fun h => hdiff h.symm⟩

/-- Witness for C6 (amended): the module registered at `0x1000` whose second
section was overwritten with `3` is reported. -/
theorem changed_module_reported_witness :
    (RegistryInv twoSectionRegistry
        ∧ StdMap.find twoSectionRegistry 0x1000
          = some ⟨0x1000, 2, 0x2000, [], [⟨0x1010, 2⟩, ⟨0x1020, 2⟩]⟩
        ∧ KnownModulesStorage.CalcModuleHashSafe sumHash tamperedMemory
          [⟨0x1010, 2⟩, ⟨0x1020, 2⟩] ≠ 2
        ∧ KnownModulesStorage.CalcModuleHashSafe sumHash tamperedMemory
          [⟨0x1010, 2⟩, ⟨0x1020, 2⟩] ≠ 0)
      ∧ 0x1000 ∈ KnownModulesStorage.FindChangedModules sumHash tamperedMemory
          twoSectionRegistry [] :=
  have hinv : RegistryInv twoSectionRegistry :=
    KnownModulesStorage.RegistryInv_Add _ _ _ _ _ _ KnownModulesStorage.RegistryInv_nil
  ⟨⟨hinv, by decide, by decide, by decide⟩,
    changed_module_reported sumHash tamperedMemory twoSectionRegistry hinv [] 0x1000
      ⟨0x1000, 2, 0x2000, [], [⟨0x1010, 2⟩, ⟨0x1020, 2⟩]⟩ (by decide) (by decide) (by decide)⟩

/-- C6 as stated fails: the module registered by `Add` at `0x1000` has two
executable sections; once the second is overwritten with the bytes of the
first, the recomputed fingerprint is `0`, which differs from the stored
fingerprint `2`, yet `FindChangedModules` does not include `0x1000`. -/
theorem changed_module_reported_counterexample :
    (∃ Info, StdMap.find twoSectionRegistry 0x1000 = some Info
        ∧ KnownModulesStorage.CalcModuleHashSafe sumHash patchedMemory Info.ExecutableSections
          ≠ Info.Hash)
      ∧ 0x1000 ∉ KnownModulesStorage.FindChangedModules sumHash patchedMemory
          twoSectionRegistry [] :=
  ⟨⟨⟨0x1000, 2, 0x2000, [], [⟨0x1010, 2⟩, ⟨0x1020, 2⟩]⟩, by decide, by decide⟩, by decide⟩

/-- C7: for a load request whose name is in neither seen-name set, when the
stack check returns unknown-module, unknown-memory or redirected-input-handler
(the oracle not vouching for the name) and the policy verdict is terminate,
the hook ends in the process abort, calls `__fastfail` exactly once, never
calls the real loader and changes neither set. -/
theorem terminate_aborts_once (env : Collaborators) (FilterData : FilterState)
    (args : LoadRequest)
    (hk : ModulesNamesStorage.Exists FilterData.KnownModulesNames args.ModuleFileName = false)
    (hi : ModulesNamesStorage.Exists FilterData.IgnoredModules args.ModuleFileName = false)
    (hv : (env.CheckStackTrace.1 = STACKTRACE_CHECK_RESULT.stUnknownModule
          ∧ env.ReportUnknownOriginModload env.CheckStackTrace.2 args.ModuleFileName
            = THREAT_DECISION.tdTerminate)
        ∨ (env.CheckStackTrace.1 = STACKTRACE_CHECK_RESULT.stUnknownMemory
          ∧ env.ReportUnknownOriginModload env.CheckStackTrace.2 args.ModuleFileName
            = THREAT_DECISION.tdTerminate)
        ∨ (env.CheckStackTrace.1 = STACKTRACE_CHECK_RESULT.stWindowsHooks
          ∧ env.IsSystemFile args.ModuleFileName = false
          ∧ env.ReportWinHooks args.ModuleFileName = THREAT_DECISION.tdTerminate)) :
    (LdrLoadDll env FilterData args).outcome = Outcome.aborted
      ∧ (LdrLoadDll env FilterData args).trace.countP Event.isFastfail = 1
      ∧ (LdrLoadDll env FilterData args).trace.countP Event.isCallOriginal = 0
      ∧ (LdrLoadDll env FilterData args).state = FilterData := by
  rcases hv with ⟨hc, hd⟩ | ⟨hc, hd⟩ | ⟨hc, hs, hd⟩
  · simp [LdrLoadDll, hk, hi, hc, hd, decisionHandling, Event.isFastfail, Event.isCallOriginal]
  · simp [LdrLoadDll, hk, hi, hc, hd, decisionHandling, Event.isFastfail, Event.isCallOriginal]
  · simp [LdrLoadDll, hk, hi, hc, hs, hd, decisionHandling, Event.isFastfail,
      Event.isCallOriginal]

/-- Witness for C7: an untrusted load from a windows-hooks handler with the
terminate verdict. -/
theorem terminate_aborts_once_witness :
    (LdrLoadDll
        (fixedCollaborators STACKTRACE_CHECK_RESULT.stWindowsHooks THREAT_DECISION.tdTerminate
          false) ⟨[], []⟩ sampleRequest).outcome = Outcome.aborted
      ∧ (LdrLoadDll
        (fixedCollaborators STACKTRACE_CHECK_RESULT.stWindowsHooks THREAT_DECISION.tdTerminate
          false) ⟨[], []⟩ sampleRequest).trace.countP Event.isFastfail = 1
      ∧ (LdrLoadDll
        (fixedCollaborators STACKTRACE_CHECK_RESULT.stWindowsHooks THREAT_DECISION.tdTerminate
          false) ⟨[], []⟩ sampleRequest).trace.countP Event.isCallOriginal = 0
      ∧ (LdrLoadDll
        (fixedCollaborators STACKTRACE_CHECK_RESULT.stWindowsHooks THREAT_DECISION.tdTerminate
          false) ⟨[], []⟩ sampleRequest).state = ⟨[], []⟩ :=
  terminate_aborts_once
    (fixedCollaborators STACKTRACE_CHECK_RESULT.stWindowsHooks THREAT_DECISION.tdTerminate false)
    ⟨[], []⟩ sampleRequest (by decide) (by decide)
    (Or.inr (Or.inr ⟨by decide, by decide, by decide⟩))

/-- C8 (the code at the failing input): a request for a name that is in the
ignored set, made with an output slot that holds `0x7FF0`, is answered with
`STATUS_NOT_FOUND` while the slot still holds `0x7FF0`; the suppress branch
for the same request clears the slot. -/
theorem ignored_branch_keeps_handle :
    (LdrLoadDll
        (fixedCollaborators STACKTRACE_CHECK_RESULT.stValid THREAT_DECISION.tdAllow false)
        ⟨[], [sampleRequest.ModuleFileName]⟩ sampleRequest).outcome
        = Outcome.returned STATUS_NOT_FOUND (some 0x7FF0)
      ∧ (LdrLoadDll
        (fixedCollaborators STACKTRACE_CHECK_RESULT.stUnknownModule
          THREAT_DECISION.tdBlockOrIgnore false)
        ⟨[], []⟩ sampleRequest).outcome = Outcome.returned STATUS_NOT_FOUND (some 0) := by
  decide

/-- C9: for a load request whose name is in neither seen-name set, when the
stack check returns unknown-module and the policy verdict is a suppress
verdict, the hook returns `STATUS_NOT_FOUND`, the output slot holds `NULL` if
one was provided, the real loader is never called and both sets are left as
they were. -/
theorem suppress_unknown_module (env : Collaborators) (FilterData : FilterState)
    (args : LoadRequest)
    (hk : ModulesNamesStorage.Exists FilterData.KnownModulesNames args.ModuleFileName = false)
    (hi : ModulesNamesStorage.Exists FilterData.IgnoredModules args.ModuleFileName = false)
    (hc : env.CheckStackTrace.1 = STACKTRACE_CHECK_RESULT.stUnknownModule)
    (hd : env.ReportUnknownOriginModload env.CheckStackTrace.2 args.ModuleFileName
          = THREAT_DECISION.tdBlockOrIgnore
        ∨ env.ReportUnknownOriginModload env.CheckStackTrace.2 args.ModuleFileName
          = THREAT_DECISION.tdBlockOrTerminate) :
    (LdrLoadDll env FilterData args).outcome
        = Outcome.returned STATUS_NOT_FOUND (args.ModuleHandle.map fun _ => 0)
      ∧ (LdrLoadDll env FilterData args).trace.countP Event.isCallOriginal = 0
      ∧ (LdrLoadDll env FilterData args).state = FilterData := by
  have hh : clearHandle args.ModuleHandle = args.ModuleHandle.map fun _ => 0 := by
    cases args.ModuleHandle <;> rfl
  rcases hd with hd | hd
  · simp [LdrLoadDll, hk, hi, hc, hd, decisionHandling, hh, Event.isCallOriginal]
  · simp [LdrLoadDll, hk, hi, hc, hd, decisionHandling, hh, Event.isCallOriginal]

/-- Witness for C9: unknown caller module, verdict block-or-ignore. -/
theorem suppress_unknown_module_witness :
    (LdrLoadDll
        (fixedCollaborators STACKTRACE_CHECK_RESULT.stUnknownModule
          THREAT_DECISION.tdBlockOrIgnore false) ⟨[], []⟩ sampleRequest).outcome
        = Outcome.returned STATUS_NOT_FOUND (sampleRequest.ModuleHandle.map fun _ => 0)
      ∧ (LdrLoadDll
        (fixedCollaborators STACKTRACE_CHECK_RESULT.stUnknownModule
          THREAT_DECISION.tdBlockOrIgnore false) ⟨[], []⟩ sampleRequest).trace.countP
            Event.isCallOriginal = 0
      ∧ (LdrLoadDll
        (fixedCollaborators STACKTRACE_CHECK_RESULT.stUnknownModule
          THREAT_DECISION.tdBlockOrIgnore false) ⟨[], []⟩ sampleRequest).state = ⟨[], []⟩ :=
  suppress_unknown_module
    (fixedCollaborators STACKTRACE_CHECK_RESULT.stUnknownModule THREAT_DECISION.tdBlockOrIgnore
      false)
    ⟨[], []⟩ sampleRequest (by decide) (by decide) (by decide) (Or.inl (by decide))

/-- C10: for a load request whose name is in neither seen-name set, when the
stack check returns valid, the hook calls the stack check and then the real
loader once with the arguments it received and nothing else (no policy
call), returns the loader's result, and leaves the name in the vetted set;
after any further hook invocations, a request for the same name is forwarded
to the real loader with no stack check. -/
theorem valid_vets_name (env : Collaborators) (FilterData : FilterState) (args : LoadRequest)
    (hk : ModulesNamesStorage.Exists FilterData.KnownModulesNames args.ModuleFileName = false)
    (hi : ModulesNamesStorage.Exists FilterData.IgnoredModules args.ModuleFileName = false)
    (hc : env.CheckStackTrace.1 = STACKTRACE_CHECK_RESULT.stValid) :
    (LdrLoadDll env FilterData args).trace = [Event.checkStackTrace, Event.callOriginal args]
      ∧ (LdrLoadDll env FilterData args).trace.countP Event.isPolicyCall = 0
      ∧ (LdrLoadDll env FilterData args).outcome
        = Outcome.returned (env.CallOriginal args).1 (env.CallOriginal args).2
      ∧ ModulesNamesStorage.Exists (LdrLoadDll env FilterData args).state.KnownModulesNames
        args.ModuleFileName = true
      ∧ ∀ (later : List (Collaborators × LoadRequest)) (env2 : Collaborators)
          (args2 : LoadRequest), args2.ModuleFileName = args.ModuleFileName →
        (LdrLoadDll env2 (runLoads (LdrLoadDll env FilterData args).state later) args2).trace
            = [Event.callOriginal args2]
          ∧ (LdrLoadDll env2 (runLoads (LdrLoadDll env FilterData args).state later)
              args2).outcome
            = Outcome.returned (env2.CallOriginal args2).1 (env2.CallOriginal args2).2 := by
  have hvet : ModulesNamesStorage.Exists (LdrLoadDll env FilterData args).state.KnownModulesNames
      args.ModuleFileName = true := by
    simp [LdrLoadDll, hk, hi, hc, returnOriginal, ModulesNamesStorage.exists_Add]
  refine ⟨?_, ?_, ?_, hvet, ?_⟩
  · simp [LdrLoadDll, hk, hi, hc, returnOriginal]
  · simp [LdrLoadDll, hk, hi, hc, returnOriginal, Event.isPolicyCall]
  · simp [LdrLoadDll, hk, hi, hc, returnOriginal]
  · intro later env2 args2 hname
    have h2 := vetted_mono_run _ later _ hvet
    rw [← hname] at h2
    rw [vetted_forward env2 _ args2 h2]
    simp [returnOriginal]

/-- Witness for C10: first load of "a.dll" from a valid stack. -/
theorem valid_vets_name_witness :
    (LdrLoadDll (fixedCollaborators STACKTRACE_CHECK_RESULT.stValid THREAT_DECISION.tdAllow false)
        ⟨[], []⟩ sampleRequest).trace
        = [Event.checkStackTrace, Event.callOriginal sampleRequest]
      ∧ ModulesNamesStorage.Exists
          (LdrLoadDll
            (fixedCollaborators STACKTRACE_CHECK_RESULT.stValid THREAT_DECISION.tdAllow false)
            ⟨[], []⟩ sampleRequest).state.KnownModulesNames sampleRequest.ModuleFileName
        = true :=
  have h := valid_vets_name
    (fixedCollaborators STACKTRACE_CHECK_RESULT.stValid THREAT_DECISION.tdAllow false)
    ⟨[], []⟩ sampleRequest (by decide) (by decide) (by decide)
  ⟨h.1, h.2.2.2.1⟩

/-! ## Further interceptor lemmas -/

theorem decisionHandling_state (env : Collaborators) (FilterData : FilterState)
    (args : LoadRequest) (CheckResult : STACKTRACE_CHECK_RESULT) (Decision : THREAT_DECISION)
    (trace : List Event) :
    (decisionHandling env FilterData args CheckResult Decision trace).state = FilterData
      ∨ (decisionHandling env FilterData args CheckResult Decision trace).state
        = { FilterData with
            IgnoredModules :=
              ModulesNamesStorage.Add FilterData.IgnoredModules args.ModuleFileName } := by
  unfold decisionHandling
  cases Decision
  · exact Or.inl rfl
  · simp only []
    split_ifs
    · exact Or.inr rfl
    · exact Or.inl rfl
  · simp only []
    split_ifs
    · exact Or.inr rfl
    · exact Or.inl rfl
  · exact Or.inl rfl

theorem step_state_cases (env : Collaborators) (FilterData : FilterState) (args : LoadRequest) :
    (LdrLoadDll env FilterData args).state = FilterData
      ∨ (ModulesNamesStorage.Exists FilterData.KnownModulesNames args.ModuleFileName = false
        ∧ ModulesNamesStorage.Exists FilterData.IgnoredModules args.ModuleFileName = false
        ∧ ((LdrLoadDll env FilterData args).state
            = { FilterData with
                KnownModulesNames :=
                  ModulesNamesStorage.Add FilterData.KnownModulesNames args.ModuleFileName }
          ∨ (LdrLoadDll env FilterData args).state
            = { FilterData with
                IgnoredModules :=
                  ModulesNamesStorage.Add FilterData.IgnoredModules args.ModuleFileName })) := by
  cases h1 : ModulesNamesStorage.Exists FilterData.KnownModulesNames args.ModuleFileName
  · cases h2 : ModulesNamesStorage.Exists FilterData.IgnoredModules args.ModuleFileName
    · cases hc : env.CheckStackTrace.1
      · right
        refine ⟨rfl, rfl, Or.inl ?_⟩
        simp [LdrLoadDll, h1, h2, hc, returnOriginal]
      · rcases decisionHandling_state env FilterData args STACKTRACE_CHECK_RESULT.stUnknownModule
          (env.ReportUnknownOriginModload env.CheckStackTrace.2 args.ModuleFileName)
          [Event.checkStackTrace,
            Event.reportUnknownOriginModload env.CheckStackTrace.2 args.ModuleFileName]
          with h | h
        · left
          simpa [LdrLoadDll, h1, h2, hc] using h
        · right
          refine ⟨rfl, rfl, Or.inr ?_⟩
          simpa [LdrLoadDll, h1, h2, hc] using h
      · rcases decisionHandling_state env FilterData args STACKTRACE_CHECK_RESULT.stUnknownMemory
          (env.ReportUnknownOriginModload env.CheckStackTrace.2 args.ModuleFileName)
          [Event.checkStackTrace,
            Event.reportUnknownOriginModload env.CheckStackTrace.2 args.ModuleFileName]
          with h | h
        · left
          simpa [LdrLoadDll, h1, h2, hc] using h
        · right
          refine ⟨rfl, rfl, Or.inr ?_⟩
          simpa [LdrLoadDll, h1, h2, hc] using h
      · cases hs : env.IsSystemFile args.ModuleFileName
        · rcases decisionHandling_state env FilterData args
            STACKTRACE_CHECK_RESULT.stWindowsHooks (env.ReportWinHooks args.ModuleFileName)
            [Event.checkStackTrace, Event.isSystemFile args.ModuleFileName,
              Event.reportWinHooks args.ModuleFileName]
            with h | h
          · left
            simpa [LdrLoadDll, h1, h2, hc, hs] using h
          · right
            refine ⟨rfl, rfl, Or.inr ?_⟩
            simpa [LdrLoadDll, h1, h2, hc, hs] using h
        · right
          refine ⟨rfl, rfl, Or.inl ?_⟩
          simp [LdrLoadDll, h1, h2, hc, hs, returnOriginal]
    · left
      simp [LdrLoadDll, h1, h2]
  · left
    simp [LdrLoadDll, h1, returnOriginal]

theorem ignored_mono_step (env : Collaborators) (FilterData : FilterState) (args : LoadRequest)
    (n : List Nat) (hn : ModulesNamesStorage.Exists FilterData.IgnoredModules n = true) :
    ModulesNamesStorage.Exists (LdrLoadDll env FilterData args).state.IgnoredModules n
      = true := by
  rcases step_state_cases env FilterData args with h | ⟨_, _, h | h⟩ <;> rw [h]
  · exact hn
  · exact hn
  · simp [ModulesNamesStorage.exists_Add, hn]

theorem disjoint_step (env : Collaborators) (FilterData : FilterState) (args : LoadRequest)
    (hd : FilterData.Disjoint) : (LdrLoadDll env FilterData args).state.Disjoint := by
  rcases step_state_cases env FilterData args with h | ⟨h1, h2, h | h⟩ <;> rw [h]
  · exact hd
  · intro n hn
    simp only [ModulesNamesStorage.exists_Add, Bool.or_eq_true, decide_eq_true_eq] at hn
    rcases hn.1 with h3 | h3
    · subst h3
      rw [h2] at hn
      exact Bool.noConfusion hn.2
    · exact hd n ⟨h3, hn.2⟩
  · intro n hn
    simp only [ModulesNamesStorage.exists_Add, Bool.or_eq_true, decide_eq_true_eq] at hn
    rcases hn.2 with h3 | h3
    · subst h3
      rw [h1] at hn
      exact Bool.noConfusion hn.1
    · exact hd n ⟨hn.1, h3⟩

theorem not_vetted_step (env : Collaborators) (FilterData : FilterState) (args : LoadRequest)
    (n : List Nat) (hk : ModulesNamesStorage.Exists FilterData.KnownModulesNames n = false)
    (hi : ModulesNamesStorage.Exists FilterData.IgnoredModules n = true) :
    ModulesNamesStorage.Exists (LdrLoadDll env FilterData args).state.KnownModulesNames n
      = false := by
  rcases step_state_cases env FilterData args with h | ⟨_, h2, h | h⟩ <;> rw [h]
  · exact hk
  · have hne : n ≠ args.ModuleFileName := by
      intro he
      subst he
      rw [h2] at hi
      exact Bool.noConfusion hi
    simp [ModulesNamesStorage.exists_Add, hne, hk]
  · exact hk

theorem ignored_run (FilterData : FilterState) (later : List (Collaborators × LoadRequest))
    (n : List Nat) (hk : ModulesNamesStorage.Exists FilterData.KnownModulesNames n = false)
    (hi : ModulesNamesStorage.Exists FilterData.IgnoredModules n = true) :
    ModulesNamesStorage.Exists (runLoads FilterData later).KnownModulesNames n = false
      ∧ ModulesNamesStorage.Exists (runLoads FilterData later).IgnoredModules n = true := by
  induction later generalizing FilterData with
  | nil => exact ⟨hk, hi⟩
  | cons x rest ih =>
    obtain ⟨env, args⟩ := x
    simp only [runLoads]
    split
    · exact ⟨not_vetted_step env FilterData args n hk hi,
        ignored_mono_step env FilterData args n hi⟩
    · exact ih _ (not_vetted_step env FilterData args n hk hi)
        (ignored_mono_step env FilterData args n hi)

theorem ignored_reject (env : Collaborators) (FilterData : FilterState) (args : LoadRequest)
    (hk : ModulesNamesStorage.Exists FilterData.KnownModulesNames args.ModuleFileName = false)
    (hi : ModulesNamesStorage.Exists FilterData.IgnoredModules args.ModuleFileName = true) :
    LdrLoadDll env FilterData args
      = { state := FilterData
          outcome := Outcome.returned STATUS_NOT_FOUND args.ModuleHandle
          trace := [] } := by
  simp [LdrLoadDll, hk, hi]

theorem run_invariants (FilterData : FilterState) (calls : List (Collaborators × LoadRequest))
    (hd : FilterData.Disjoint) :
    (runLoads FilterData calls).Disjoint
      ∧ (∀ n, ModulesNamesStorage.Exists FilterData.KnownModulesNames n = true →
        ModulesNamesStorage.Exists (runLoads FilterData calls).KnownModulesNames n = true)
      ∧ ∀ n, ModulesNamesStorage.Exists FilterData.IgnoredModules n = true →
        ModulesNamesStorage.Exists (runLoads FilterData calls).IgnoredModules n = true := by
  induction calls generalizing FilterData with
  | nil => exact ⟨hd, fun _ h => h, fun _ h => h⟩
  | cons x rest ih =>
    obtain ⟨env, args⟩ := x
    simp only [runLoads]
    split
    · exact ⟨disjoint_step env FilterData args hd,
        fun n h => vetted_mono_step env FilterData args n h,
        fun n h => ignored_mono_step env FilterData args n h⟩
    · obtain ⟨h1, h2, h3⟩ := ih _ (disjoint_step env FilterData args hd)
      exact ⟨h1, fun n h => h2 n (vetted_mono_step env FilterData args n h),
        fun n h => h3 n (ignored_mono_step env FilterData args n h)⟩

/-! ## Claims on the seen-name sets and the interceptor, continued -/

/-- C11: for every load request whose name is in the vetted set, whatever the
ignored set holds, the hook makes one call, the real loader with the
arguments it received (no stack check, no oracle, no policy), returns the
loader's result and changes neither seen-name set. -/
theorem vetted_fast_path (env : Collaborators) (FilterData : FilterState) (args : LoadRequest)
    (hk : ModulesNamesStorage.Exists FilterData.KnownModulesNames args.ModuleFileName = true) :
    (LdrLoadDll env FilterData args).trace = [Event.callOriginal args]
      ∧ (LdrLoadDll env FilterData args).outcome
        = Outcome.returned (env.CallOriginal args).1 (env.CallOriginal args).2
      ∧ (LdrLoadDll env FilterData args).state = FilterData := by
  rw [vetted_forward env FilterData args hk]
  simp [returnOriginal]

/-- Witness for C11: the name "a.dll" is in the vetted set and in the ignored
set. -/
theorem vetted_fast_path_witness :
    (LdrLoadDll
        (fixedCollaborators STACKTRACE_CHECK_RESULT.stWindowsHooks THREAT_DECISION.tdTerminate
          false)
        ⟨[sampleRequest.ModuleFileName], [sampleRequest.ModuleFileName]⟩ sampleRequest).trace
        = [Event.callOriginal sampleRequest]
      ∧ (LdrLoadDll
        (fixedCollaborators STACKTRACE_CHECK_RESULT.stWindowsHooks THREAT_DECISION.tdTerminate
          false)
        ⟨[sampleRequest.ModuleFileName], [sampleRequest.ModuleFileName]⟩ sampleRequest).state
        = ⟨[sampleRequest.ModuleFileName], [sampleRequest.ModuleFileName]⟩ :=
  have h := vetted_fast_path
    (fixedCollaborators STACKTRACE_CHECK_RESULT.stWindowsHooks THREAT_DECISION.tdTerminate false)
    ⟨[sampleRequest.ModuleFileName], [sampleRequest.ModuleFileName]⟩ sampleRequest (by decide)
  ⟨h.1, h.2.2⟩

/-- C14: for every set state and all names `n` and `m`: `Exists(n)` is true
after `Add(n)`; in the set built from the empty one by adding the names of a
list, `Exists(m)` is true exactly for the names of the list, hence false for
a name never added; `Add(n)` twice yields the same set as `Add(n)` once; and
`Add(n)` leaves `Exists(m)` as it was for every `m` other than `n`. -/
theorem names_storage_laws (Modules : List (List Nat)) (names : List (List Nat))
    (n m : List Nat) :
    ModulesNamesStorage.Exists (ModulesNamesStorage.Add Modules n) n = true
      ∧ ModulesNamesStorage.Exists (names.foldl ModulesNamesStorage.Add []) m
        = decide (m ∈ names)
      ∧ ModulesNamesStorage.Add (ModulesNamesStorage.Add Modules n) n
        = ModulesNamesStorage.Add Modules n
      ∧ (m ≠ n → ModulesNamesStorage.Exists (ModulesNamesStorage.Add Modules n) m
        = ModulesNamesStorage.Exists Modules m) := by
  refine ⟨?_, ?_, ?_, ?_⟩
  · simp [ModulesNamesStorage.exists_Add]
  · have hgen : ∀ (start : List (List Nat)),
        ModulesNamesStorage.Exists (names.foldl ModulesNamesStorage.Add start) m
          = (decide (m ∈ names) || ModulesNamesStorage.Exists start m) := by
      induction names with
      | nil => intro start; simp
      | cons x rest ih =>
        intro start
        rw [List.foldl_cons, ih, ModulesNamesStorage.exists_Add]
        by_cases h1 : m = x
        · subst h1
          simp
        · by_cases h2 : m ∈ rest <;> simp [h1, h2]
    rw [hgen]
    simp [ModulesNamesStorage.Exists]
  · unfold ModulesNamesStorage.Add
    by_cases h : n ∈ Modules
    · simp [h]
    · simp [h]
  · intro h
    simp [ModulesNamesStorage.exists_Add, h]

/-- Witness for C14: adding "b" does not change whether "a" is in the set. -/
theorem names_storage_laws_witness :
    ([97] : List Nat) ≠ [98]
      ∧ ModulesNamesStorage.Exists (ModulesNamesStorage.Add [[97]] [98]) [97]
        = ModulesNamesStorage.Exists [[97]] [97] :=
  ⟨by decide, (names_storage_laws [[97]] [] [98] [97]).2.2.2 (by decide)⟩

/-- C15: for a load request whose name is in neither seen-name set, when the
stack check returns unknown-module or unknown-memory and the policy verdict
is allow, the hook calls the stack check, the policy and then the real
loader, returns the loader's result and leaves both sets as they were; the
next request for the same name runs the stack check again, and the policy
again when the check is again unknown-module or unknown-memory. -/
theorem allow_forwards_unvetted (env : Collaborators) (FilterData : FilterState)
    (args : LoadRequest)
    (hk : ModulesNamesStorage.Exists FilterData.KnownModulesNames args.ModuleFileName = false)
    (hi : ModulesNamesStorage.Exists FilterData.IgnoredModules args.ModuleFileName = false)
    (hc : env.CheckStackTrace.1 = STACKTRACE_CHECK_RESULT.stUnknownModule
      ∨ env.CheckStackTrace.1 = STACKTRACE_CHECK_RESULT.stUnknownMemory)
    (hd : env.ReportUnknownOriginModload env.CheckStackTrace.2 args.ModuleFileName
      = THREAT_DECISION.tdAllow) :
    (LdrLoadDll env FilterData args).trace
        = [Event.checkStackTrace,
          Event.reportUnknownOriginModload env.CheckStackTrace.2 args.ModuleFileName,
          Event.callOriginal args]
      ∧ (LdrLoadDll env FilterData args).outcome
        = Outcome.returned (env.CallOriginal args).1 (env.CallOriginal args).2
      ∧ (LdrLoadDll env FilterData args).state = FilterData
      ∧ ∀ (env2 : Collaborators) (args2 : LoadRequest),
        args2.ModuleFileName = args.ModuleFileName →
        (LdrLoadDll env2 (LdrLoadDll env FilterData args).state args2).trace.head?
            = some Event.checkStackTrace
          ∧ ((env2.CheckStackTrace.1 = STACKTRACE_CHECK_RESULT.stUnknownModule
              ∨ env2.CheckStackTrace.1 = STACKTRACE_CHECK_RESULT.stUnknownMemory) →
            Event.reportUnknownOriginModload env2.CheckStackTrace.2 args2.ModuleFileName
              ∈ (LdrLoadDll env2 (LdrLoadDll env FilterData args).state args2).trace) := by
  have hst : (LdrLoadDll env FilterData args).state = FilterData := by
    rcases hc with hc | hc <;>
      simp [LdrLoadDll, hk, hi, hc, hd, decisionHandling, returnOriginal]
  refine ⟨?_, ?_, hst, ?_⟩
  · rcases hc with hc | hc <;>
      simp [LdrLoadDll, hk, hi, hc, hd, decisionHandling, returnOriginal]
  · rcases hc with hc | hc <;>
      simp [LdrLoadDll, hk, hi, hc, hd, decisionHandling, returnOriginal]
  · intro env2 args2 hname
    rw [hst]
    rw [← hname] at hk hi
    constructor
    · cases hc2 : env2.CheckStackTrace.1
      · simp [LdrLoadDll, hk, hi, hc2, returnOriginal]
      · cases hd2 : env2.ReportUnknownOriginModload env2.CheckStackTrace.2 args2.ModuleFileName <;>
          simp [LdrLoadDll, hk, hi, hc2, hd2, decisionHandling, returnOriginal]
      · cases hd2 : env2.ReportUnknownOriginModload env2.CheckStackTrace.2 args2.ModuleFileName <;>
          simp [LdrLoadDll, hk, hi, hc2, hd2, decisionHandling, returnOriginal]
      · cases hs2 : env2.IsSystemFile args2.ModuleFileName
        · cases hd2 : env2.ReportWinHooks args2.ModuleFileName <;>
            simp [LdrLoadDll, hk, hi, hc2, hs2, hd2, decisionHandling, returnOriginal]
        · simp [LdrLoadDll, hk, hi, hc2, hs2, returnOriginal]
    · intro hc2
      rcases hc2 with hc2 | hc2 <;>
        cases hd2 : env2.ReportUnknownOriginModload env2.CheckStackTrace.2
          args2.ModuleFileName <;>
        simp [LdrLoadDll, hk, hi, hc2, hd2, decisionHandling, returnOriginal]

/-- Witness for C15: unknown caller memory, verdict allow. -/
theorem allow_forwards_unvetted_witness :
    (LdrLoadDll
        (fixedCollaborators STACKTRACE_CHECK_RESULT.stUnknownMemory THREAT_DECISION.tdAllow false)
        ⟨[], []⟩ sampleRequest).trace
        = [Event.checkStackTrace,
          Event.reportUnknownOriginModload 0x4444 sampleRequest.ModuleFileName,
          Event.callOriginal sampleRequest]
      ∧ (LdrLoadDll
        (fixedCollaborators STACKTRACE_CHECK_RESULT.stUnknownMemory THREAT_DECISION.tdAllow false)
        ⟨[], []⟩ sampleRequest).state = ⟨[], []⟩ :=
  have h := allow_forwards_unvetted
    (fixedCollaborators STACKTRACE_CHECK_RESULT.stUnknownMemory THREAT_DECISION.tdAllow false)
    ⟨[], []⟩ sampleRequest (by decide) (by decide) (Or.inr (by decide)) (by decide)
  ⟨h.1, h.2.2.1⟩

/-- C16: for a load request whose name is in neither seen-name set: when the
stack check returns redirected-input-handler, the oracle does not vouch for
the name and the policy verdict is a suppress verdict, the hook adds the name
to the ignored set and returns `STATUS_NOT_FOUND` without calling the real
loader, and after any further hook invocations every request for that name
returns `STATUS_NOT_FOUND` with no call to the stack check, the policy or the
real loader; when the stack check returns unknown-module or unknown-memory, a
suppress verdict leaves the name out of the ignored set. -/
theorem suppress_hooks_ignores_name (env : Collaborators) (FilterData : FilterState)
    (args : LoadRequest)
    (hk : ModulesNamesStorage.Exists FilterData.KnownModulesNames args.ModuleFileName = false)
    (hi : ModulesNamesStorage.Exists FilterData.IgnoredModules args.ModuleFileName = false) :
    ((env.CheckStackTrace.1 = STACKTRACE_CHECK_RESULT.stWindowsHooks
        ∧ env.IsSystemFile args.ModuleFileName = false
        ∧ (env.ReportWinHooks args.ModuleFileName = THREAT_DECISION.tdBlockOrIgnore
          ∨ env.ReportWinHooks args.ModuleFileName = THREAT_DECISION.tdBlockOrTerminate)) →
      ModulesNamesStorage.Exists (LdrLoadDll env FilterData args).state.IgnoredModules
          args.ModuleFileName = true
        ∧ (LdrLoadDll env FilterData args).outcome
          = Outcome.returned STATUS_NOT_FOUND (args.ModuleHandle.map fun _ => 0)
        ∧ (LdrLoadDll env FilterData args).trace.countP Event.isCallOriginal = 0
        ∧ ∀ (later : List (Collaborators × LoadRequest)) (env2 : Collaborators)
            (args2 : LoadRequest), args2.ModuleFileName = args.ModuleFileName →
          (LdrLoadDll env2 (runLoads (LdrLoadDll env FilterData args).state later) args2).trace
              = []
            ∧ (LdrLoadDll env2 (runLoads (LdrLoadDll env FilterData args).state later)
                args2).outcome = Outcome.returned STATUS_NOT_FOUND args2.ModuleHandle)
      ∧ (((env.CheckStackTrace.1 = STACKTRACE_CHECK_RESULT.stUnknownModule
          ∨ env.CheckStackTrace.1 = STACKTRACE_CHECK_RESULT.stUnknownMemory)
        ∧ (env.ReportUnknownOriginModload env.CheckStackTrace.2 args.ModuleFileName
            = THREAT_DECISION.tdBlockOrIgnore
          ∨ env.ReportUnknownOriginModload env.CheckStackTrace.2 args.ModuleFileName
            = THREAT_DECISION.tdBlockOrTerminate)) →
        ModulesNamesStorage.Exists (LdrLoadDll env FilterData args).state.IgnoredModules
          args.ModuleFileName = false) := by
  have hh : clearHandle args.ModuleHandle = args.ModuleHandle.map fun _ => 0 := by
    cases args.ModuleHandle <;> rfl
  constructor
  · rintro ⟨hc, hs, hd⟩
    have hst : (LdrLoadDll env FilterData args).state
        = { FilterData with
            IgnoredModules :=
              ModulesNamesStorage.Add FilterData.IgnoredModules args.ModuleFileName } := by
      rcases hd with hd | hd <;> simp [LdrLoadDll, hk, hi, hc, hs, hd, decisionHandling]
    have hign : ModulesNamesStorage.Exists (LdrLoadDll env FilterData args).state.IgnoredModules
        args.ModuleFileName = true := by
      rw [hst]
      simp [ModulesNamesStorage.exists_Add]
    have hnot : ModulesNamesStorage.Exists
        (LdrLoadDll env FilterData args).state.KnownModulesNames args.ModuleFileName
          = false := by
      rw [hst]
      exact hk
    refine ⟨hign, ?_, ?_, ?_⟩
    · rcases hd with hd | hd <;> simp [LdrLoadDll, hk, hi, hc, hs, hd, decisionHandling, hh]
    · rcases hd with hd | hd <;>
        simp [LdrLoadDll, hk, hi, hc, hs, hd, decisionHandling, Event.isCallOriginal]
    · intro later env2 args2 hname
      obtain ⟨h1, h2⟩ := ignored_run _ later _ hnot hign
      rw [← hname] at h1 h2
      rw [ignored_reject env2 _ args2 h1 h2]
      exact ⟨rfl, rfl⟩
  · rintro ⟨hc, hd⟩
    rcases hc with hc | hc <;> rcases hd with hd | hd <;>
      simp [LdrLoadDll, hk, hi, hc, hd, decisionHandling]

/-- Witness for C16: an untrusted load from a windows-hooks handler with the
verdict block-or-ignore puts "a.dll" in the ignored set. -/
theorem suppress_hooks_ignores_name_witness :
    ModulesNamesStorage.Exists
        (LdrLoadDll
          (fixedCollaborators STACKTRACE_CHECK_RESULT.stWindowsHooks
            THREAT_DECISION.tdBlockOrIgnore false)
          ⟨[], []⟩ sampleRequest).state.IgnoredModules sampleRequest.ModuleFileName = true :=
  ((suppress_hooks_ignores_name
    (fixedCollaborators STACKTRACE_CHECK_RESULT.stWindowsHooks THREAT_DECISION.tdBlockOrIgnore
      false)
    ⟨[], []⟩ sampleRequest (by decide) (by decide)).1
      ⟨by decide, by decide, Or.inl (by decide)⟩).1

/-- C19: starting from seen-name sets with no name in common, after every
sequence of hook invocations, with any names and any collaborator answers, no
name is in both sets, and every name that was in the vetted set or in the
ignored set is still in it. -/
theorem seen_sets_disjoint_monotone (FilterData : FilterState)
    (calls : List (Collaborators × LoadRequest)) (hd : FilterData.Disjoint) :
    (∀ n, ¬ (ModulesNamesStorage.Exists (runLoads FilterData calls).KnownModulesNames n = true
        ∧ ModulesNamesStorage.Exists (runLoads FilterData calls).IgnoredModules n = true))
      ∧ (∀ n, ModulesNamesStorage.Exists FilterData.KnownModulesNames n = true →
        ModulesNamesStorage.Exists (runLoads FilterData calls).KnownModulesNames n = true)
      ∧ ∀ n, ModulesNamesStorage.Exists FilterData.IgnoredModules n = true →
        ModulesNamesStorage.Exists (runLoads FilterData calls).IgnoredModules n = true :=
  run_invariants FilterData calls hd

/-- Witness for C19: two invocations from the empty sets, the first vetting
"a.dll", the second a suppressed load of "a.dll" from a windows-hooks
handler. -/
theorem seen_sets_disjoint_monotone_witness :
    ¬ (ModulesNamesStorage.Exists
          (runLoads ⟨[], []⟩
            [(fixedCollaborators STACKTRACE_CHECK_RESULT.stValid THREAT_DECISION.tdAllow false,
                sampleRequest),
              (fixedCollaborators STACKTRACE_CHECK_RESULT.stWindowsHooks
                THREAT_DECISION.tdBlockOrIgnore false, sampleRequest)]).KnownModulesNames
          sampleRequest.ModuleFileName = true
        ∧ ModulesNamesStorage.Exists
          (runLoads ⟨[], []⟩
            [(fixedCollaborators STACKTRACE_CHECK_RESULT.stValid THREAT_DECISION.tdAllow false,
                sampleRequest),
              (fixedCollaborators STACKTRACE_CHECK_RESULT.stWindowsHooks
                THREAT_DECISION.tdBlockOrIgnore false, sampleRequest)]).IgnoredModules
          sampleRequest.ModuleFileName = true) :=
  (seen_sets_disjoint_monotone ⟨[], []⟩
    [(fixedCollaborators STACKTRACE_CHECK_RESULT.stValid THREAT_DECISION.tdAllow false,
        sampleRequest),
      (fixedCollaborators STACKTRACE_CHECK_RESULT.stWindowsHooks
        THREAT_DECISION.tdBlockOrIgnore false, sampleRequest)]
    (by intro n h; simp [ModulesNamesStorage.Exists] at h)).1 sampleRequest.ModuleFileName

/-! ## Further registry lemmas -/

namespace StdMap

theorem find_emplace_ne {V : Type} (l : List (Nat × V)) (key : Nat) (v : V) (b : Nat)
    (hne : b ≠ key) : find (emplace l key v) b = find l b := by
  have hne2 : ¬ key = b := fun e => hne e.symm
  induction l with
  | nil => simp [emplace, find, hne2]
  | cons e rest ih =>
    obtain ⟨k, w⟩ := e
    simp only [emplace]
    split_ifs with h1 h2
    · simp [find, hne2]
    · rfl
    · by_cases h : k = b
      · simp [find, h]
      · simp [find, h, ih]

theorem emplace_present {V : Type} (l : List (Nat × V)) (key : Nat) (v : V)
    (hl : List.Pairwise (fun e f => e.1 < f.1) l) (hp : (find l key).isSome = true) :
    emplace l key v = l := by
  induction l with
  | nil => simp [find] at hp
  | cons e rest ih =>
    obtain ⟨k, w⟩ := e
    rw [List.pairwise_cons] at hl
    simp only [emplace]
    split_ifs with h1 h2
    · exfalso
      have hk : ¬ k = key := by omega
      simp only [find, if_neg hk] at hp
      obtain ⟨w2, hw2⟩ := Option.isSome_iff_exists.1 hp
      have h3 := hl.1 _ (mem_of_find_eq_some _ _ _ hw2)
      simp only at h3
      omega
    · rfl
    · have hk : ¬ k = key := fun e => h2 e.symm
      simp only [find, if_neg hk] at hp
      rw [ih hl.2 hp]

end StdMap

namespace KnownModulesStorage

theorem calc_nil (t1ha0 : List Nat → Nat → Nat) (mem : Memory) :
    CalcModuleHashSafe t1ha0 mem [] = 0 := rfl

theorem EmptySectionsInv_emplace (t1ha0 : List Nat → Nat → Nat) (mem : Memory)
    (Modules : Registry) (key Base Size : Nat) (Name : List Nat) (Sections : List SEC_INFO)
    (hinv : EmptySectionsInv Modules) :
    EmptySectionsInv (StdMap.emplace Modules key
      { Base := Base, Hash := CalcModuleHashSafe t1ha0 mem Sections, Size := Size,
        Name := Name, ExecutableSections := Sections }) := by
  intro e he hempty
  rcases StdMap.mem_emplace _ _ _ e he with h | h
  · subst h
    simp only at hempty
    simp only [hempty]
    rfl
  · exact hinv e h hempty

theorem EmptySectionsInv_Add (t1ha0 : List Nat → Nat → Nat) (mem : Memory) (Modules : Registry)
    (hModule Size : Nat) (Name : Option (List Nat)) (hinv : EmptySectionsInv Modules) :
    EmptySectionsInv (Add t1ha0 mem Modules hModule Size Name) := by
  unfold Add
  split_ifs
  · exact hinv
  · exact EmptySectionsInv_emplace t1ha0 mem Modules _ _ _ _ _ hinv

theorem EmptySectionsInv_Remove (Modules : Registry) (hModule : Nat)
    (hinv : EmptySectionsInv Modules) : EmptySectionsInv (Remove Modules hModule) := by
  unfold Remove
  split_ifs
  · exact hinv
  · rw [StdMap.erase_eq_filter]
    intro e he
    exact hinv e (List.mem_of_mem_filter he)

theorem EmptySectionsInv_setHash (t1ha0 : List Nat → Nat → Nat) (mem : Memory)
    (Modules : Registry) (key : Nat) (hinv : EmptySectionsInv Modules) :
    EmptySectionsInv (setHash t1ha0 mem Modules key) := by
  induction Modules with
  | nil => exact hinv
  | cons x rest ih =>
    obtain ⟨k, Info⟩ := x
    have hrest : EmptySectionsInv rest := fun e he => hinv e (List.mem_cons_of_mem _ he)
    simp only [setHash]
    split_ifs with h
    · intro e he hempty
      rcases List.mem_cons.1 he with h1 | h1
      · subst h1
        simp only at hempty
        simp only [hempty]
        rfl
      · exact hrest e h1 hempty
    · intro e he hempty
      rcases List.mem_cons.1 he with h1 | h1
      · subst h1
        exact hinv _ (List.mem_cons_self _ _) hempty
      · exact ih hrest e h1 hempty

theorem EmptySectionsInv_RehashModule (t1ha0 : List Nat → Nat → Nat) (mem : Memory)
    (Modules : Registry) (hModule : Nat) (hinv : EmptySectionsInv Modules) :
    EmptySectionsInv (RehashModule t1ha0 mem Modules hModule) := by
  unfold RehashModule
  split_ifs
  · exact hinv
  · exact EmptySectionsInv_setHash t1ha0 mem Modules hModule hinv

theorem EnumModulesSafe_inv (t1ha0 : List Nat → Nat → Nat) (mem : Memory)
    (ldr : List LdrNode) (Local : Registry) (h1 : RegistryInv Local)
    (h2 : EmptySectionsInv Local) :
    RegistryInv (EnumModulesSafe t1ha0 mem ldr Local).2
      ∧ EmptySectionsInv (EnumModulesSafe t1ha0 mem ldr Local).2 := by
  induction ldr generalizing Local with
  | nil => exact ⟨h1, h2⟩
  | cons node rest ih =>
    cases node with
    | fault => exact ⟨h1, h2⟩
    | null => exact ⟨h1, h2⟩
    | entry Module =>
      simp only [EnumModulesSafe, EnumModulesCallback]
      split_ifs with hb
      · exact ⟨h1, h2⟩
      · refine ih _ ⟨StdMap.emplace_sorted _ _ _ h1.1, ?_⟩
          (EmptySectionsInv_emplace t1ha0 mem Local _ _ _ _ _ h2)
        intro e he
        rcases StdMap.mem_emplace _ _ _ e he with h | h
        · subst h
          exact ⟨rfl, hb⟩
        · exact h1.2 e h

end KnownModulesStorage

theorem applyOps_inv (t1ha0 : List Nat → Nat → Nat) (Modules : Registry)
    (ops : List RegistryOp) (h1 : RegistryInv Modules) (h2 : EmptySectionsInv Modules) :
    RegistryInv (applyOps t1ha0 Modules ops) ∧ EmptySectionsInv (applyOps t1ha0 Modules ops) := by
  induction ops generalizing Modules with
  | nil => exact ⟨h1, h2⟩
  | cons op rest ih =>
    cases op with
    | Collect mem ldr =>
      have h := KnownModulesStorage.EnumModulesSafe_inv t1ha0 mem ldr []
        KnownModulesStorage.RegistryInv_nil (fun e he => by cases he)
      exact ih _ h.1 h.2
    | Add mem hModule Size Name =>
      exact ih _ (KnownModulesStorage.RegistryInv_Add t1ha0 mem Modules hModule Size Name h1)
        (KnownModulesStorage.EmptySectionsInv_Add t1ha0 mem Modules hModule Size Name h2)
    | Remove hModule =>
      exact ih _ (KnownModulesStorage.RegistryInv_Remove Modules hModule h1)
        (KnownModulesStorage.EmptySectionsInv_Remove Modules hModule h2)
    | Clear =>
      exact ih _ KnownModulesStorage.RegistryInv_nil (fun e he => by cases he)
    | RehashModule mem hModule =>
      exact ih _ (KnownModulesStorage.RegistryInv_RehashModule t1ha0 mem Modules hModule h1)
        (KnownModulesStorage.EmptySectionsInv_RehashModule t1ha0 mem Modules hModule h2)

namespace KnownModulesStorage

theorem hashSections_readable (t1ha0 : List Nat → Nat → Nat) (mem : Memory)
    (Sections : List SEC_INFO) (acc : Nat)
    (hread : ∀ s ∈ Sections, (readBytes mem s.Size s.VirtualAddress).isSome = true) :
    hashSections t1ha0 mem Sections acc
      = some ((Sections.map fun s =>
          t1ha0 ((readBytes mem s.Size s.VirtualAddress).getD []) 0x1EE7C0DE % 2 ^ 64).foldl
            (fun Hash h => Hash ^^^ h) acc) := by
  induction Sections generalizing acc with
  | nil => rfl
  | cons s rest ih =>
    have hs := hread s (List.mem_cons_self _ _)
    obtain ⟨bs, hbs⟩ := Option.isSome_iff_exists.1 hs
    simp only [hashSections, hashRange, hbs, List.map_cons, List.foldl_cons, Option.getD_some]
    rw [ih _ fun x hx => hread x (List.mem_cons_of_mem _ hx)]
    rfl

theorem hashSections_perm (t1ha0 : List Nat → Nat → Nat) (mem : Memory)
    (l1 l2 : List SEC_INFO) (hp : List.Perm l1 l2) (acc : Nat) :
    hashSections t1ha0 mem l1 acc = hashSections t1ha0 mem l2 acc := by
  induction hp generalizing acc with
  | nil => rfl
  | cons x _ ih =>
    simp only [hashSections]
    cases hashRange t1ha0 mem x.VirtualAddress x.Size HashSeed with
    | none => rfl
    | some h => exact ih _
  | swap x y l =>
    simp only [hashSections]
    cases hashRange t1ha0 mem x.VirtualAddress x.Size HashSeed with
    | none =>
      cases hashRange t1ha0 mem y.VirtualAddress y.Size HashSeed <;> rfl
    | some hx =>
      cases hashRange t1ha0 mem y.VirtualAddress y.Size HashSeed with
      | none => rfl
      | some hy =>
        simp only
        rw [Nat.xor_assoc, Nat.xor_comm hy hx, ← Nat.xor_assoc]
  | trans _ _ ih1 ih2 => exact (ih1 acc).trans (ih2 acc)

end KnownModulesStorage

/-! ## Claims on the registry, continued -/

/-- C12 (the code at the failing input): with a loader list whose second
record faults, `EnumModulesSafe` returns `FALSE`, and `Collect()` run on the
registry that holds the modules at `0x1000` and `0x2000` leaves a registry
that holds only the module at `0x3000` read before the fault. -/
theorem collect_fault_replaces_registry :
    (KnownModulesStorage.EnumModulesSafe sumHash onesMemory faultingLdr []).1 = false
      ∧ KnownModulesStorage.Collect sumHash onesMemory faultingLdr overlapRegistry
        = [(0x3000, ⟨0x3000, 518504674, 0x1000, [], [⟨0x3010, 4⟩]⟩)]
      ∧ KnownModulesStorage.Collect sumHash onesMemory faultingLdr overlapRegistry
        ≠ overlapRegistry := by
  decide

/-- C13 (the code at the failing input): `Collect()` on a loader list whose
record has base `0x3000` and `SizeOfImage` zero stores, from the empty
registry, a descriptor under `0x3000` whose size is zero, whereas
`Add(0x3000, 0, NULL)` stores nothing. -/
theorem collect_stores_zero_size :
    applyOps sumHash [] [RegistryOp.Collect onesMemory zeroSizeLdr]
        = [(0x3000, ⟨0x3000, 518504674, 0, [], [⟨0x3010, 4⟩]⟩)]
      ∧ applyOps sumHash [] [RegistryOp.Add onesMemory 0x3000 0 none] = [] := by
  decide

/-- C17: for every list of executable sections whose bytes are all readable,
the fingerprint of `CalcModuleHashSafe` is the XOR of the values of `t1ha0`
with seed `0x1EE7C0DE` over the bytes of each section, and every permutation
of the section list has the same fingerprint. -/
theorem fingerprint_xor_order_independent (t1ha0 : List Nat → Nat → Nat) (mem : Memory)
    (Sections : List SEC_INFO)
    (hread : ∀ s ∈ Sections, (readBytes mem s.Size s.VirtualAddress).isSome = true) :
    KnownModulesStorage.CalcModuleHashSafe t1ha0 mem Sections
        = (Sections.map fun s =>
            t1ha0 ((readBytes mem s.Size s.VirtualAddress).getD []) 0x1EE7C0DE % 2 ^ 64).foldl
              (fun Hash h => Hash ^^^ h) 0
      ∧ ∀ Permuted : List SEC_INFO, List.Perm Permuted Sections →
        KnownModulesStorage.CalcModuleHashSafe t1ha0 mem Permuted
          = KnownModulesStorage.CalcModuleHashSafe t1ha0 mem Sections := by
  constructor
  · unfold KnownModulesStorage.CalcModuleHashSafe
    rw [KnownModulesStorage.hashSections_readable t1ha0 mem Sections 0 hread]
  · intro Permuted hp
    unfold KnownModulesStorage.CalcModuleHashSafe
    rw [KnownModulesStorage.hashSections_perm t1ha0 mem Permuted Sections hp 0]

/-- Witness for C17: the two sections of the module at `0x1000` are readable,
and their fingerprint is the same in either order. -/
theorem fingerprint_xor_order_independent_witness :
    (∀ s ∈ [(⟨0x1010, 2⟩ : SEC_INFO), ⟨0x1020, 2⟩],
        (readBytes twoSectionMemory s.Size s.VirtualAddress).isSome = true)
      ∧ KnownModulesStorage.CalcModuleHashSafe sumHash twoSectionMemory
          [⟨0x1020, 2⟩, ⟨0x1010, 2⟩]
        = KnownModulesStorage.CalcModuleHashSafe sumHash twoSectionMemory
          [⟨0x1010, 2⟩, ⟨0x1020, 2⟩] :=
  have hread : ∀ s ∈ [(⟨0x1010, 2⟩ : SEC_INFO), ⟨0x1020, 2⟩],
      (readBytes twoSectionMemory s.Size s.VirtualAddress).isSome = true := by decide
  ⟨hread,
    (fingerprint_xor_order_independent sumHash twoSectionMemory [⟨0x1010, 2⟩, ⟨0x1020, 2⟩]
      hread).2 [⟨0x1020, 2⟩, ⟨0x1010, 2⟩] (List.Perm.swap _ _ _)⟩

/-- C18: in every registry state reached from the empty registry by `Collect`,
`Add`, `Remove`, `Clear` and `RehashModule`, a registered module whose
executable-section list is empty has the stored fingerprint zero,
`IsModuleValid` is true for its base in every memory state, and
`FindChangedModules` does not report its base in any memory state. -/
theorem empty_sections_always_valid (t1ha0 : List Nat → Nat → Nat) (ops : List RegistryOp)
    (b : Nat) (Info : MODULE_INFO)
    (hreg : StdMap.find (applyOps t1ha0 [] ops) b = some Info)
    (hempty : Info.ExecutableSections = []) :
    Info.Hash = 0
      ∧ (∀ mem, KnownModulesStorage.IsModuleValid t1ha0 mem (applyOps t1ha0 [] ops) b = true)
      ∧ ∀ mem prev,
        b ∉ KnownModulesStorage.FindChangedModules t1ha0 mem (applyOps t1ha0 [] ops) prev := by
  obtain ⟨h1, h2⟩ := applyOps_inv t1ha0 [] ops KnownModulesStorage.RegistryInv_nil
    (fun e he => by cases he)
  have hmem := StdMap.mem_of_find_eq_some _ _ _ hreg
  have hzero : Info.Hash = 0 := h2 _ hmem hempty
  have hb : b ≠ 0 := (h1.2 _ hmem).2
  refine ⟨hzero, ?_, ?_⟩
  · intro mem
    unfold KnownModulesStorage.IsModuleValid
    rw [if_neg hb, hreg]
    simp only [hempty, hzero]
    rfl
  · intro mem prev hin
    obtain ⟨Info2, hf, hnz, _⟩ :=
      (KnownModulesStorage.mem_FindChangedModules t1ha0 mem _ h1 prev b).1 hin
    rw [hreg] at hf
    cases hf
    rw [hempty] at hnz
    exact hnz rfl

/-- Witness for C18: the module registered at `0x1000` has no executable
section. -/
theorem empty_sections_always_valid_witness :
    (StdMap.find (applyOps sumHash [] [RegistryOp.Add dataOnlyMemory 0x1000 0x2000 none]) 0x1000
        = some ⟨0x1000, 0, 0x2000, [], []⟩)
      ∧ KnownModulesStorage.IsModuleValid sumHash tamperedMemory
          (applyOps sumHash [] [RegistryOp.Add dataOnlyMemory 0x1000 0x2000 none]) 0x1000
        = true :=
  ⟨by decide,
    (empty_sections_always_valid sumHash [RegistryOp.Add dataOnlyMemory 0x1000 0x2000 none]
      0x1000 ⟨0x1000, 0, 0x2000, [], []⟩ (by decide) rfl).2.1 tamperedMemory⟩

/-- C20: in a registry that satisfies its invariant, `Add(b, size, name)` for
a base `b` that is already present leaves the registry as it was, so the old
descriptor with its size, name, sections and fingerprint is kept; and for
every `b`, `Add` leaves the descriptor of every other base as it was. -/
theorem add_keeps_existing (t1ha0 : List Nat → Nat → Nat) (mem : Memory) (Modules : Registry)
    (hinv : RegistryInv Modules) (b Size : Nat) (Name : Option (List Nat)) :
    (KnownModulesStorage.IsModulePresent Modules b = true →
        KnownModulesStorage.Add t1ha0 mem Modules b Size Name = Modules)
      ∧ ∀ other, other ≠ b →
        StdMap.find (KnownModulesStorage.Add t1ha0 mem Modules b Size Name) other
          = StdMap.find Modules other := by
  constructor
  · intro hp
    unfold KnownModulesStorage.Add
    split_ifs
    · rfl
    · exact StdMap.emplace_present _ _ _ hinv.1 hp
  · intro other hne
    unfold KnownModulesStorage.Add
    split_ifs
    · rfl
    · exact StdMap.find_emplace_ne _ _ _ _ hne

/-- Witness for C20: a second `Add` for `0x1000`, with another size, name and
memory content, leaves the two-module registry as it was. -/
theorem add_keeps_existing_witness :
    RegistryInv overlapRegistry
      ∧ KnownModulesStorage.Add sumHash tamperedMemory overlapRegistry 0x1000 0x9000
          (some [97]) = overlapRegistry :=
  have hinv : RegistryInv overlapRegistry :=
    KnownModulesStorage.RegistryInv_Add _ _ _ _ _ _
      (KnownModulesStorage.RegistryInv_Add _ _ _ _ _ _ KnownModulesStorage.RegistryInv_nil)
  ⟨hinv,
    (add_keeps_existing sumHash tamperedMemory overlapRegistry hinv 0x1000 0x9000
      (some [97])).1 (by decide)⟩

end DllFilter
